import Mathlib

/-
Formal model of the MULTI-DB repository's metadata-graph query engine.

Embedded source files:
  * src/multidb_university_unified/graph_models.py      (GraphNode, GraphEdge)
  * src/multidb_university_unified/metadata_manager.py  (build_graph_from_schema)
  * src/multidb_university_unified/data_manager.py      (retrieval paths)
  * src/base/query_engine.py                            (_evaluate_filter)

Modelling conventions:
  * Python scalar values are modelled by `Value` (numbers as rationals,
    which covers the ints and floats appearing in records and filters).
  * A MongoDB document is an association list `Doc`; `doc.get(k)` returning
    Python `None` for a missing key is modelled by `docGet` returning
    `Value.null` (a stored null and a missing key are indistinguishable
    through `dict.get`, exactly as in the source).
  * Python dictionaries that are built by repeated assignment are modelled
    by association lists with an update-or-append `dictInsert`.
  * Functions that can raise in Python return `Option`; `none` models an
    uncaught exception, while explicit `return None` paths of the source
    are modelled by a dedicated `none` of the result `Option` where the
    source genuinely returns null (documented at each definition).
-/

/-- A Python/BSON scalar or array value as it appears in records and
filters.  Numbers are rationals: the source only ever compares ints and
floats, and rational arithmetic models Python's exact cross-type numeric
comparison (`3 == 3.0`). -/
inductive Value where
  | num (q : ℚ)
  | str (s : String)
  | bool (b : Bool)
  | null
  | arr (elems : List Value)

mutual

/-- Decidable structural equality for `Value`. -/
def Value.decEq : (a b : Value) → Decidable (a = b)
  | .num a, .num b =>
      if h : a = b then .isTrue (by rw [h]) else .isFalse (fun hh => h (Value.num.inj hh))
  | .num _, .str _ => .isFalse (fun hh => Value.noConfusion hh)
  | .num _, .bool _ => .isFalse (fun hh => Value.noConfusion hh)
  | .num _, .null => .isFalse (fun hh => Value.noConfusion hh)
  | .num _, .arr _ => .isFalse (fun hh => Value.noConfusion hh)
  | .str _, .num _ => .isFalse (fun hh => Value.noConfusion hh)
  | .str a, .str b =>
      if h : a = b then .isTrue (by rw [h]) else .isFalse (fun hh => h (Value.str.inj hh))
  | .str _, .bool _ => .isFalse (fun hh => Value.noConfusion hh)
  | .str _, .null => .isFalse (fun hh => Value.noConfusion hh)
  | .str _, .arr _ => .isFalse (fun hh => Value.noConfusion hh)
  | .bool _, .num _ => .isFalse (fun hh => Value.noConfusion hh)
  | .bool _, .str _ => .isFalse (fun hh => Value.noConfusion hh)
  | .bool a, .bool b =>
      if h : a = b then .isTrue (by rw [h]) else .isFalse (fun hh => h (Value.bool.inj hh))
  | .bool _, .null => .isFalse (fun hh => Value.noConfusion hh)
  | .bool _, .arr _ => .isFalse (fun hh => Value.noConfusion hh)
  | .null, .num _ => .isFalse (fun hh => Value.noConfusion hh)
  | .null, .str _ => .isFalse (fun hh => Value.noConfusion hh)
  | .null, .bool _ => .isFalse (fun hh => Value.noConfusion hh)
  | .null, .null => .isTrue rfl
  | .null, .arr _ => .isFalse (fun hh => Value.noConfusion hh)
  | .arr _, .num _ => .isFalse (fun hh => Value.noConfusion hh)
  | .arr _, .str _ => .isFalse (fun hh => Value.noConfusion hh)
  | .arr _, .bool _ => .isFalse (fun hh => Value.noConfusion hh)
  | .arr _, .null => .isFalse (fun hh => Value.noConfusion hh)
  | .arr a, .arr b =>
      match Value.decEqList a b with
      | .isTrue h => .isTrue (by rw [h])
      | .isFalse h => .isFalse (fun hh => h (Value.arr.inj hh))

/-- Decidable structural equality for lists of `Value`. -/
def Value.decEqList : (a b : List Value) → Decidable (a = b)
  | [], [] => .isTrue rfl
  | [], _ :: _ => .isFalse (fun hh => List.noConfusion hh)
  | _ :: _, [] => .isFalse (fun hh => List.noConfusion hh)
  | a :: as1, b :: bs =>
      match Value.decEq a b, Value.decEqList as1 bs with
      | .isTrue h1, .isTrue h2 => .isTrue (by rw [h1, h2])
      | .isFalse h1, _ => .isFalse (fun hh => h1 (List.head_eq_of_cons_eq hh))
      | _, .isFalse h2 => .isFalse (fun hh => h2 (List.tail_eq_of_cons_eq hh))

end

instance : DecidableEq Value := Value.decEq

/-- `Value.null` test (`v is None` in Python). -/
def Value.isNull : Value → Bool
  | .null => true
  | _ => false

/-- A flat record / MongoDB document: an ordered association list from
field names to values. -/
abbrev Doc := List (String × Value)

/-- First binding of a key in an association list (Python dict lookup
order is irrelevant here because keys are unique by construction). -/
def alistGet (d : List (String × α)) (k : String) : Option α :=
  (d.find? (fun p => p.1 = k)).map (fun p => p.2)

/-- `doc.get(key)`: Python returns `None` both for a missing key and for a
stored null, so both are collapsed to `Value.null`. -/
def docGet (d : Doc) (k : String) : Value :=
  (alistGet d k).getD .null

/-- `key in doc` (Python `in` on a dict). -/
def docHas (d : Doc) (k : String) : Bool :=
  (alistGet d k).isSome

/-- Python dictionary assignment `d[k] = v`: replace the binding if the
key exists, otherwise append. -/
def dictInsert (d : List (String × α)) (k : String) (v : α) : List (String × α) :=
  match d with
  | [] => [(k, v)]
  | (k1, v1) :: rest =>
      if k1 = k then (k1, v) :: rest else (k1, v1) :: dictInsert rest k v

/-- Python truthiness of a value (`bool(v)`), used by the `$exists`
operator test. -/
def pyTruthy : Value → Bool
  | .num q => q ≠ 0
  | .str s => s ≠ ""
  | .bool b => b
  | .null => false
  | .arr l => ¬ l.isEmpty

/-- Python `==` on values: exact numeric comparison across int/float,
`True == 1`, structural comparison of lists, `None == None`, and `False`
for any other cross-type comparison (Python `==` does not raise). -/
def pyEq : Value → Value → Bool
  | .num a, .num b => a = b
  | .num a, .bool b => a = (if b then 1 else 0)
  | .bool a, .num b => (if a then (1 : ℚ) else 0) = b
  | .bool a, .bool b => a = b
  | .str a, .str b => a = b
  | .null, .null => true
  | .arr a, .arr b => pyEqList a b
  | _, _ => false
where
  /-- Elementwise Python `==` on lists. -/
  pyEqList : List Value → List Value → Bool
  | [], [] => true
  | a :: as1, b :: bs => pyEq a b && pyEqList as1 bs
  | _, _ => false

/-- Python `<` on values, `none` when the comparison raises `TypeError`
(comparing `None`, or a string with a number, and so on).  Booleans
compare as the integers 0/1, as in Python. -/
def pyLt : Value → Value → Option Bool
  | .num a, .num b => some (decide (a < b))
  | .num a, .bool b => some (decide (a < (if b then 1 else 0)))
  | .bool a, .num b => some (decide ((if a then (1 : ℚ) else 0) < b))
  | .bool a, .bool b => some (decide (a < b))
  | .str a, .str b => some (decide (a < b))
  | .arr a, .arr b => pyLtList a b
  | _, _ => none
where
  /-- Lexicographic Python `<` on lists. -/
  pyLtList : List Value → List Value → Option Bool
  | [], [] => some false
  | [], _ :: _ => some true
  | _ :: _, [] => some false
  | a :: as1, b :: bs =>
      match pyLt a b with
      | none => none
      | some true => some true
      | some false =>
          if pyEq a b then pyLtList as1 bs else some false

/-- Python `a > b`, i.e. `b < a`. -/
def pyGt (a b : Value) : Option Bool := pyLt b a

/-- Python `a >= b`: `not (a < b)` for the totally ordered cases. -/
def pyGe (a b : Value) : Option Bool := (pyLt a b).map (fun r => !r)

/-- Python `a <= b`: `not (b < a)`. -/
def pyLe (a b : Value) : Option Bool := (pyLt b a).map (fun r => !r)

/-- The value of one filter entry in `base/query_engine.py`: either a
plain scalar (equality test) or a mapping (operator test; the source
takes `list(value.items())[0]`, so only the first entry of the mapping is
consulted and an empty mapping raises `IndexError`). -/
inductive FilterVal where
  | scalar (v : Value)
  | map (entries : List (String × Value))

/-- `QueryEngine._evaluate_filter` (src/base/query_engine.py lines 69-89),
for one record `data`, filter key `key` and filter value `value`.
`none` models a raised exception (`IndexError` on an empty operator
mapping, `TypeError` from an impossible comparison); `some b` is the
returned boolean. -/
def _evaluate_filter (data : Doc) (key : String) (value : FilterVal) : Option Bool :=
  let node_val := docGet data key
  match value with
  | .map entries =>
      match entries with
      | [] => none
      | (op, op_val) :: _ =>
          if node_val.isNull ∧ op ≠ "$exists" then some false
          else if op = "$gt" then pyGt node_val op_val
          else if op = "$lt" then pyLt node_val op_val
          else if op = "$gte" then pyGe node_val op_val
          else if op = "$lte" then pyLe node_val op_val
          else if op = "$ne" then some (!pyEq node_val op_val)
          else if op = "$exists" then
            some ((pyTruthy op_val && !node_val.isNull) ||
                  (!pyTruthy op_val && node_val.isNull))
          else some false
  | .scalar v => some (pyEq node_val v)

example : _evaluate_filter [("GPA", .num (mkRat 392 100))] "GPA"
    (.map [("$gt", .num (mkRat 39 10))]) = some true := by decide

example : _evaluate_filter [("GPA", .num (mkRat 375 100))] "GPA"
    (.map [("$gt", .num (mkRat 39 10))]) = some false := by decide

/-
Graph model (src/multidb_university_unified/graph_models.py) and the
schema-to-graph compiler (src/multidb_university_unified/metadata_manager.py).
-/

/-- Truthiness of an optional string (`if self.datasource:` in
`GraphNode.to_dict`): present and non-empty. -/
def optStrTruthy : Option String → Bool
  | some s => s ≠ ""
  | none => false

/-- A node of the metadata graph, as persisted by `GraphNode.to_dict`:
`_id`, `type`, `label`, `properties`, plus `datasource` and
`collection_name` which are stored only when truthy. -/
structure GraphNode where
  id : String
  type : String
  label : String
  properties : List (String × Value)
  datasource : Option String := none
  collection_name : Option String := none
  deriving DecidableEq

/-- An edge of the metadata graph (`GraphEdge.to_dict`). -/
structure GraphEdge where
  source : String
  target : String
  relation : String
  properties : List (String × Value)
  deriving DecidableEq

/-- The two metadata collections (`metagraph_nodes`, `metagraph_edges`),
in insertion (natural) order. -/
structure GraphState where
  nodes : List GraphNode
  edges : List GraphEdge
  deriving DecidableEq

/-- The document `GraphNode.to_dict` actually persists: `datasource` /
`collection_name` keys are omitted when falsy, which on insert stores
them as absent (`none`). -/
def GraphNode.stored (n : GraphNode) : GraphNode :=
  { n with
    datasource := if optStrTruthy n.datasource then n.datasource else none
    collection_name := if optStrTruthy n.collection_name then n.collection_name else none }

/-- `GraphNode.save`: `update_one({_id}, {$set: to_dict()}, upsert=True)`.
On a match, `$set` overwrites `type`, `label`, `properties` and — only
when truthy in the new node — `datasource` / `collection_name` (a falsy
optional field leaves the stored one untouched); otherwise the stored
document is appended. -/
def GraphNode.save (n : GraphNode) (nodes : List GraphNode) : List GraphNode :=
  if nodes.any (fun m => m.id = n.id) then
    nodes.map (fun m =>
      if m.id = n.id then
        { id := m.id
          type := n.type
          label := n.label
          properties := n.properties
          datasource := if optStrTruthy n.datasource then n.datasource else m.datasource
          collection_name :=
            if optStrTruthy n.collection_name then n.collection_name else m.collection_name }
      else m)
  else nodes ++ [n.stored]

/-- `GraphEdge.save`: upsert keyed by the triple (source, target,
relation), so at most one edge of a given relation exists per ordered
node pair; a second save overwrites the properties. -/
def GraphEdge.save (e : GraphEdge) (edges : List GraphEdge) : List GraphEdge :=
  if edges.any (fun d => d.source = e.source ∧ d.target = e.target ∧ d.relation = e.relation) then
    edges.map (fun d =>
      if d.source = e.source ∧ d.target = e.target ∧ d.relation = e.relation then
        { d with properties := e.properties }
      else d)
  else edges ++ [e]

/-- One field/column declaration of the schema registry
(src/multidb_university_unified/data_models.py).  The flag keys are
present in a declaration exactly when set, and the source-specific access
hints (`xpath`, `json_path`) are never consulted by the graph compiler or
the query executor, so they are not modelled. -/
structure FieldSchema where
  label : String
  data_type : Option String := none
  is_primary_key : Bool := false
  is_foreign_key : Bool := false
  references : Option String := none
  deriving DecidableEq

/-- One logical entity declaration (`type`, `label`, and either `columns`
or `fields`). -/
structure EntitySchema where
  type : String
  label : String
  columns : List FieldSchema := []
  fields : List FieldSchema := []
  deriving DecidableEq

/-- One source definition of the registry. -/
structure SourceSchema where
  source_type : String
  source_name : String
  entities : List EntitySchema
  deriving DecidableEq

/-- The schema registry: what `get_collection_schemas()` returns. -/
abbrev Registry := List SourceSchema

/-- `entity.get("columns", []) or entity.get("fields", [])`: the columns
when non-empty, else the fields. -/
def EntitySchema.fieldDecls (e : EntitySchema) : List FieldSchema :=
  if e.columns.isEmpty then e.fields else e.columns

/-- One character of Python's `.lower().replace(' ', '_')` id
normalisation (ASCII lowering, as the ids here are ASCII). -/
def normChar (c : Char) : Char :=
  let lc := c.toLower
  if lc = ' ' then '_' else lc

/-- `s.lower().replace(' ', '_')`: since the pattern is the single
character `' '`, the replacement is a character map. -/
def pyNormId (s : String) : String := ⟨s.data.map normChar⟩

/-- Derived entity node id: `f"{entity_node_type}_{entity_label}".lower()
.replace(' ', '_')` with `entity_node_type = "collection"`
(metadata_manager.py line 47). -/
def entityNodeId (label : String) : String := pyNormId ("collection_" ++ label)

/-- Derived field node id: `f"{entity_node.id}_{field_label}".lower()
.replace(' ', '_')` (metadata_manager.py line 66). -/
def fieldNodeId (entityId fieldLabel : String) : String :=
  pyNormId (entityId ++ "_" ++ fieldLabel)

/-- The persisted properties of a field node: every schema key of the
declaration except `label` (metadata_manager.py line 69). -/
def fieldProps (f : FieldSchema) : List (String × Value) :=
  (match f.data_type with
   | some dt => [("data_type", Value.str dt)]
   | none => []) ++
  (if f.is_primary_key then [("is_primary_key", Value.bool true)] else []) ++
  (if f.is_foreign_key then [("is_foreign_key", Value.bool true)] else []) ++
  (match f.references with
   | some r => [("references", Value.str r)]
   | none => [])

/-- Intermediate state of a graph build: the two collections, the
`_entity_node_cache` (label to node id, a Python dict), and the
`entity_nodes_to_process_fk` work list for pass 2. -/
structure BuildState where
  graph : GraphState
  cache : List (String × String)
  fkPending : List (GraphNode × EntitySchema)

/-- Pass 1 for a single declared field of an entity: save the field node
(with every schema property except the label) and the HAS_FIELD edge
from the owning entity (metadata_manager.py lines 64-85). -/
def processField (entity_node_id : String) (acc : List GraphNode × List GraphEdge)
    (field : FieldSchema) : List GraphNode × List GraphEdge :=
  let field_node : GraphNode :=
    { id := fieldNodeId entity_node_id field.label
      type := "field"
      label := field.label
      properties := fieldProps field }
  let nodes2 := field_node.save acc.1
  let edge : GraphEdge :=
    { source := entity_node_id
      target := field_node.id
      relation := "HAS_FIELD"
      properties := [] }
  (nodes2, edge.save acc.2)

/-- Pass 1 for a single entity declaration: save its entity node, record
it in the cache and the pass-2 work list, and save one field node plus
one HAS_FIELD edge per declared field (metadata_manager.py lines 39-85). -/
def processEntity (source : SourceSchema) (st : BuildState) (entity : EntitySchema) :
    BuildState :=
  let entity_node : GraphNode :=
    { id := entityNodeId entity.label
      type := "collection"
      label := entity.label
      datasource := some source.source_name
      collection_name := some entity.label
      properties :=
        [("source_system_type", Value.str source.source_type),
         ("original_entity_type", Value.str entity.type)] }
  let nodes1 := entity_node.save st.graph.nodes
  let cache1 := dictInsert st.cache entity.label entity_node.id
  let pending1 := st.fkPending ++ [(entity_node, entity)]
  let nodesEdges := entity.fieldDecls.foldl (processField entity_node.id)
    (nodes1, st.graph.edges)
  { graph := { nodes := nodesEdges.1, edges := nodesEdges.2 }
    cache := cache1
    fkPending := pending1 }

/-- Pass 2 for a single entity: for each declared field flagged as a
foreign key with a truthy `references` target, resolve the target in the
cache and save a REFERENCES edge carrying `on_field`; an unresolved
target is logged and skipped (metadata_manager.py lines 89-110). -/
def processForeignKeys (cache : List (String × String))
    (edges : List GraphEdge) (entityNodePending : GraphNode × EntitySchema) :
    List GraphEdge :=
  let (entity_node, entity_schema) := entityNodePending
  entity_schema.fieldDecls.foldl
    (fun acc field =>
      match field.references with
      | some target_entity_label =>
          if field.is_foreign_key ∧ target_entity_label ≠ "" then
            match alistGet cache target_entity_label with
            | some target_entity_node_id =>
                (GraphEdge.save
                  { source := entity_node.id
                    target := target_entity_node_id
                    relation := "REFERENCES"
                    properties := [("on_field", Value.str field.label)] } acc)
            | none => acc
          else acc
      | none => acc)
    edges

/-- `MetadataManager.clear_graph`: delete every node and edge. -/
def clear_graph (_st : GraphState) : GraphState := { nodes := [], edges := [] }

/-- `MetadataManager.build_graph_from_schema` over a registry: clear the
graph, run pass 1 over every source and entity, then pass 2 over the
recorded entities.  (Both call sites of `GraphNode` pass an explicit
`node_id`, so the uuid-based default id of `graph_models.py` is dead code
and every id is derived deterministically from the labels.) -/
def build_graph_from_schema (st : GraphState) (schemas : Registry) : GraphState :=
  let cleared := clear_graph st
  let st1 : BuildState := { graph := cleared, cache := [], fkPending := [] }
  let afterPass1 :=
    schemas.foldl
      (fun acc source => source.entities.foldl (processEntity source) acc)
      st1
  let finalEdges :=
    afterPass1.fkPending.foldl
      (fun acc p => processForeignKeys afterPass1.cache acc p)
      afterPass1.graph.edges
  { nodes := afterPass1.graph.nodes, edges := finalEdges }

/-
Physical-store model: the subset of MongoDB `find` semantics that the
executor relies on (equality and `$in` filters, inclusion/exclusion
projections).  The store is an external collaborator of the core; its
`find(filter, projection)` contract is modelled after MongoDB's documented
behaviour for exactly the filter and projection shapes the executor emits.
-/

/-- BSON equality as used in filter matching: numeric values compare
across int/double, all other comparisons are per-type (in particular a
boolean never matches a number, unlike Python `==`). -/
def mongoValEq : Value → Value → Bool
  | .num a, .num b => a = b
  | .str a, .str b => a = b
  | .bool a, .bool b => a = b
  | .null, .null => true
  | .arr a, .arr b => mongoValEqList a b
  | _, _ => false
where
  /-- Elementwise BSON equality on arrays. -/
  mongoValEqList : List Value → List Value → Bool
  | [], [] => true
  | a :: as1, b :: bs => mongoValEq a b && mongoValEqList as1 bs
  | _, _ => false

/-- Match of a single filter value `v` against field `k` of a document:
a `null` query value matches a missing field, and an array-valued field
matches if the array itself or any of its elements matches. -/
def mongoFieldMatches (d : Doc) (k : String) (v : Value) : Bool :=
  match alistGet d k with
  | none => v.isNull
  | some (.arr xs) => mongoValEq (.arr xs) v || xs.any (fun x => mongoValEq x v)
  | some w => mongoValEq w v

/-- One conjunct of a MongoDB filter document: either `{k: v}` or
`{k: {$in: vs}}` — the only shapes the data manager sends to the store. -/
inductive MCond where
  | eqCond (k : String) (v : Value)
  | inCond (k : String) (vs : List Value)

/-- A MongoDB filter document: a conjunction of field conditions
(the empty list is the match-all filter). -/
abbrev MFilter := List MCond

/-- Whether a document satisfies a filter. -/
def docMatches (f : MFilter) (d : Doc) : Bool :=
  f.all (fun c =>
    match c with
    | .eqCond k v => mongoFieldMatches d k v
    | .inCond k vs => vs.any (fun v => mongoFieldMatches d k v))

/-- MongoDB projection application for the shapes built by
`_build_projection` (a set of `field: 1` inclusions with `_id: 0/1`, or
the bare exclusion `_id: 0`): inclusion mode keeps exactly the listed
fields plus `_id` unless suppressed; exclusion mode drops the fields
marked `0`. -/
def applyProjection (proj : List (String × Nat)) (d : Doc) : Doc :=
  let inclusionMode :=
    proj.any (fun p => p.1 ≠ "_id" ∧ p.2 ≠ 0) ||
    (proj.all (fun p => p.1 = "_id") && proj.any (fun p => p.2 ≠ 0))
  if inclusionMode then
    d.filter (fun p =>
      if p.1 = "_id" then ¬ alistGet proj "_id" = some 0
      else
        match alistGet proj p.1 with
        | some v => v ≠ 0
        | none => false)
  else
    d.filter (fun p => ¬ alistGet proj p.1 = some 0)

/-- `collection.find(filter, projection)`: the matching documents in
natural (insertion) order, each projected. -/
def mongoFind (docs : List Doc) (f : MFilter) (proj : List (String × Nat)) : List Doc :=
  (docs.filter (docMatches f)).map (applyProjection proj)

/-- The data collections of the database, by collection name. -/
abbrev DataStore := String → List Doc

/-
Query executor (src/multidb_university_unified/data_manager.py).
Printing/tabulation is side-effect-only in the source and is not
modelled; an `Option` result's `none` stands for the source's explicit
`return None` paths and for exceptions swallowed by the enclosing
`try/except` (each such case is documented where it arises).
-/

/-- Falsiness of an optional string (`not node.get("collection_name")`). -/
def strFalsy : Option String → Bool
  | none => true
  | some s => s = ""

/-- Lexicographic codepoint order on character lists: the ascending
string order used by the store's `.sort("label", 1)`. -/
def charListLe : List Char → List Char → Bool
  | [], _ => true
  | _ :: _, [] => false
  | a :: as1, b :: bs =>
      if a.toNat < b.toNat then true
      else if b.toNat < a.toNat then false
      else charListLe as1 bs

/-- Ascending string comparison (lexicographic on codepoints). -/
def strLe (a b : String) : Bool := charListLe a.data b.data

/-- String prefix test (Python `re` anchor `^p` / `str.startswith`). -/
def strIsPre (p s : String) : Bool := p.data.isPrefixOf s.data

/-- Ordering of graph nodes by label, as produced by `.sort("label", 1)`. -/
def labelLe (a b : GraphNode) : Prop := strLe a.label b.label = true

instance : DecidableRel labelLe := fun _ _ => instDecidableEqBool _ _

/-- `DataManager.find_entity_node`: `find_one({"label": label, "type":
"collection"})` — the first matching node in natural order. -/
def find_entity_node (gs : GraphState) (label : String) : Option GraphNode :=
  gs.nodes.find? (fun n => n.label = label ∧ n.type = "collection")

/-- `DataManager.get_entity_fields`: labels of the HAS_FIELD targets of
an entity node, sorted ascending by label (`.sort("label", 1)`).  Every
stored node carries a label, so the source's `if "label" in node` guard
is vacuous here. -/
def get_entity_fields (gs : GraphState) (entity_node_id : String) : List String :=
  let field_edges :=
    gs.edges.filter (fun e => e.source = entity_node_id ∧ e.relation = "HAS_FIELD")
  let field_node_ids := field_edges.map (fun e => e.target)
  if field_node_ids.isEmpty then []
  else
    let field_nodes := gs.nodes.filter (fun n => field_node_ids.contains n.id)
    (field_nodes.insertionSort labelLe).map (fun n => n.label)

/-- `DataManager._find_primary_key_field_by_label`: the label of the
first HAS_FIELD target of the entity whose properties carry
`is_primary_key: true`. -/
def _find_primary_key_field_by_label (gs : GraphState) (entity_label : String) :
    Option String :=
  match find_entity_node gs entity_label with
  | none => none
  | some entity_node =>
    let field_edges :=
      gs.edges.filter (fun e => e.source = entity_node.id ∧ e.relation = "HAS_FIELD")
    if field_edges.isEmpty then none
    else
      let field_node_ids := field_edges.map (fun e => e.target)
      match gs.nodes.find? (fun n =>
          field_node_ids.contains n.id ∧
          alistGet n.properties "is_primary_key" = some (.bool true)) with
      | some pk_node => some pk_node.label
      | none => none

/-- `DataManager._find_primary_key_field`: resolve the node id to its
label first. -/
def _find_primary_key_field (gs : GraphState) (entity_node_id : String) : Option String :=
  match gs.nodes.find? (fun n => n.id = entity_node_id) with
  | some node => _find_primary_key_field_by_label gs node.label
  | none => none

/-- One hop of a traversal query (`relations[i]`): the `relation` key
defaults to REFERENCES when absent, `direction` is required. -/
structure RelStep where
  target_entity : String
  relation : Option String := none
  direction : Option String := none

/-- The link resolution result of `_get_relationship_link_fields`.  The
source wraps each field in a singleton list and only ever reads index 0,
so the fields are modelled directly. -/
structure LinkInfo where
  start_entity_link_field : String
  target_entity_link_field : String
  start_entity_link_is_array : Bool
  deriving DecidableEq

/-- `DataManager._get_relationship_link_fields` (lines 646-678): find the
REFERENCES edge between the two entity nodes in either direction, read
`on_field` (the foreign key, held by the edge source), resolve the edge
target's primary key, detect an array-typed foreign key via the field
node whose id extends the holder's id (the source uses the id-prefix
regex `^{fk_holder_id}_`), and orient the pair by `direction`.  Every
failure path returns `None` in the source.  `on_field` is always written
as a non-empty string by the graph compiler, so only that shape passes
the source's truthiness check. -/
def _get_relationship_link_fields (gs : GraphState) (start_node_id : Option String)
    (rel_info : RelStep) : Option LinkInfo :=
  match start_node_id with
  | none => none
  | some sid =>
    let relation_type := rel_info.relation.getD "REFERENCES"
    match rel_info.direction with
    | none => none
    | some direction =>
      if direction = "" then none
      else
        match find_entity_node gs rel_info.target_entity with
        | none => none
        | some target_node =>
          let tid := target_node.id
          match gs.edges.find? (fun e =>
              e.relation = relation_type ∧
              ((e.source = sid ∧ e.target = tid) ∨ (e.source = tid ∧ e.target = sid))) with
          | none => none
          | some edge =>
            match alistGet edge.properties "on_field" with
            | some (.str fk_field_name) =>
              if fk_field_name = "" then none
              else
                let fk_holder_node_id := edge.source
                let pk_holder_node_id := edge.target
                match _find_primary_key_field gs pk_holder_node_id with
                | none => none
                | some pk_field_name =>
                  let fk_field_node := gs.nodes.find? (fun n =>
                    n.label = fk_field_name ∧ strIsPre (fk_holder_node_id ++ "_") n.id)
                  let is_array :=
                    match fk_field_node with
                    | some fn =>
                      match alistGet fn.properties "data_type" with
                      | some (.str dt) => strIsPre "ARRAY" dt
                      | _ => false
                    | none => false
                  if direction = "out" then
                    if sid = fk_holder_node_id then
                      some ⟨fk_field_name, pk_field_name, is_array⟩
                    else some ⟨pk_field_name, fk_field_name, false⟩
                  else if direction = "in" then
                    if sid = pk_holder_node_id then
                      some ⟨pk_field_name, fk_field_name, false⟩
                    else some ⟨fk_field_name, pk_field_name, is_array⟩
                  else none
            | _ => none

/-- `DataManager._build_projection` (lines 680-688): the requested fields
(all declared fields when the request is null) each mapped to `1`, with
`_id` forced to `1` exactly when requested and `0` otherwise; an empty
field set yields the bare exclusion `{"_id": 0}`. -/
def _build_projection (requested_fields : Option (List String))
    (all_schema_fields : List String) : List (String × Nat) :=
  let fields_to_project := requested_fields.getD all_schema_fields
  if fields_to_project.isEmpty then [("_id", 0)]
  else
    let projection := fields_to_project.foldl (fun acc field => dictInsert acc field 1) []
    if fields_to_project.contains "_id" then dictInsert projection "_id" 1
    else dictInsert projection "_id" 0

/-- The per-entity field selection of a traversal query
(`final_fields`): an association of entity label to either an explicit
list or null (= all declared fields). -/
abbrev FinalFields := List (String × Option (List String))

/-- `DataManager._get_fields_scope` (lines 690-694): the explicitly
requested list if the entry is present and non-null (even when empty),
otherwise every declared field. -/
def _get_fields_scope (gs : GraphState) (final_fields_request : FinalFields)
    (entity_label : String) (entity_node_id : String) : List String :=
  match alistGet final_fields_request entity_label with
  | some (some requested) => requested
  | _ => get_entity_fields gs entity_node_id

/-- Append an element to a list unless already present (models adding to
a Python set, with the set iterated in first-insertion order). -/
def dedupAppend (l : List String) (x : String) : List String :=
  if l.contains x then l else l ++ [x]

/-- `DataManager._get_expected_headers` (lines 696-707).  Line 702 of the
source reads `if not node: continue; node_id = node['_id']`, which parses
with the assignment inside the `if` suite after `continue`: `node_id` is
therefore never assigned, and every branch that evaluates
`self.get_entity_fields(node_id)` (an entity present with a null request,
or any resolvable entity when `final_fields` is empty) raises
`UnboundLocalError` — modelled as `none`.  Entities whose node is missing
are skipped; an entity absent from a non-empty request contributes no
headers. -/
def _get_expected_headers (gs : GraphState) (final_fields_request : FinalFields)
    (relations : List RelStep) (start_entity_label : String) : Option (List String) :=
  let entities :=
    (start_entity_label :: relations.map (fun r => r.target_entity)).foldl dedupAppend []
  entities.foldl
    (fun acc entity_label =>
      match acc with
      | none => none
      | some headers =>
        match find_entity_node gs entity_label with
        | none => some headers
        | some _node =>
          match alistGet final_fields_request entity_label with
          | some (some fields_scope) =>
              some (fields_scope.foldl
                (fun h f => dedupAppend h (entity_label ++ "." ++ f)) headers)
          | some none => none
          | none =>
              if final_fields_request.isEmpty then none else some headers)
    (some [])

/-- `DataManager._retrieve_single_entity` (lines 421-465), result only
(tabulated console output is not modelled): resolve the entity node and
its collection (`None` with a printed message when either is missing),
project to the requested or all declared fields, and return the filtered,
projected read. -/
def _retrieve_single_entity (gs : GraphState) (ds : DataStore) (entity_label : String)
    (requested_fields : Option (List String)) (filters : MFilter) : Option (List Doc) :=
  match find_entity_node gs entity_label with
  | none => none
  | some entity_node =>
    if strFalsy entity_node.collection_name then none
    else
      let collection_name := entity_node.collection_name.getD ""
      let metadata_headers := get_entity_fields gs entity_node.id
      let projection := _build_projection requested_fields metadata_headers
      some (mongoFind (ds collection_name) filters projection)

/-- A traversal query (`action: get_related`). -/
structure RelatedQuery where
  start_entity : String
  start_filters : MFilter
  relations : List RelStep
  final_fields : FinalFields

/-- Add a value to a Python set of link values (membership by Python
equality). -/
def setAdd (l : List Value) (v : Value) : List Value :=
  if l.any (fun w => pyEq w v) then l else l ++ [v]

/-- The distinct non-null link values carried by the current record set
(lines 518-525): with an array link every non-null element of a
list-valued field is collected, and with a scalar link the value itself;
an array-linked field holding a non-list value contributes nothing. -/
def collectLinkValues (link_field : String) (is_array_link : Bool)
    (docs : List Doc) : List Value :=
  docs.foldl
    (fun acc doc =>
      match alistGet doc link_field with
      | none => acc
      | some v =>
        if v.isNull then acc
        else if is_array_link then
          match v with
          | .arr items => items.foldl (fun a it => if it.isNull then a else setAdd a it) acc
          | _ => acc
        else setAdd acc v)
    []

/-- Mutable loop state of the traversal phase: `processed_results`,
`current_entity_label`, `current_entity_node_id`. -/
structure TravState where
  processed : List (String × List Doc)
  current_entity_label : String
  current_entity_node_id : Option String

/-- One iteration of the traversal loop (lines 508-536): resolve the
target entity and the hop's link fields, collect the carried link values,
fetch the matching target documents (projected to the requested output
fields plus this hop's and the peeked next hop's link fields), and record
the dataset under the target label.  Every failure (no upstream node,
missing target metadata, unresolved link, no link values) records an
empty dataset and continues. -/
def traverseStep (gs : GraphState) (ds : DataStore) (ff : FinalFields)
    (st : TravState) (rel_step : RelStep) (next_step : Option RelStep) : TravState :=
  let target_entity_label := rel_step.target_entity
  match st.current_entity_node_id with
  | none =>
      { processed := dictInsert st.processed target_entity_label []
        current_entity_label := target_entity_label
        current_entity_node_id := none }
  | some current_id =>
    match find_entity_node gs target_entity_label with
    | none =>
        { processed := dictInsert st.processed target_entity_label []
          current_entity_label := target_entity_label
          current_entity_node_id := none }
    | some target_node =>
      if strFalsy target_node.collection_name then
        { processed := dictInsert st.processed target_entity_label []
          current_entity_label := target_entity_label
          current_entity_node_id := none }
      else
        let target_collection_name := target_node.collection_name.getD ""
        let target_node_id := target_node.id
        match _get_relationship_link_fields gs (some current_id) rel_step with
        | none =>
            { processed := dictInsert st.processed target_entity_label []
              current_entity_label := target_entity_label
              current_entity_node_id := some target_node_id }
        | some link_info =>
          let current_docs := (alistGet st.processed st.current_entity_label).getD []
          let link_values :=
            collectLinkValues link_info.start_entity_link_field
              link_info.start_entity_link_is_array current_docs
          if link_values.isEmpty then
            { processed := dictInsert st.processed target_entity_label []
              current_entity_label := target_entity_label
              current_entity_node_id := some target_node_id }
          else
            let target_link_field := link_info.target_entity_link_field
            let target_filter : MFilter := [.inCond target_link_field link_values]
            let target_requested := (alistGet ff target_entity_label).join
            let target_projection0 :=
              _build_projection target_requested (get_entity_fields gs target_node_id)
            let target_projection1 := dictInsert target_projection0 target_link_field 1
            let target_projection2 :=
              match next_step with
              | some nx =>
                match _get_relationship_link_fields gs (some target_node_id) nx with
                | some next_link_info =>
                    dictInsert target_projection1 next_link_info.start_entity_link_field 1
                | none => target_projection1
              | none => target_projection1
            let target_projection :=
              if (alistGet target_projection2 "_id").isSome then target_projection2
              else dictInsert target_projection2 "_id" 0
            let target_data := mongoFind (ds target_collection_name) target_filter target_projection
            { processed := dictInsert st.processed target_entity_label target_data
              current_entity_label := target_entity_label
              current_entity_node_id := some target_node_id }

/-- The traversal loop over all hops, peeking one hop ahead for the
projection of the next link field. -/
def traverseRelations (gs : GraphState) (ds : DataStore) (ff : FinalFields) :
    TravState → List RelStep → TravState
  | st, [] => st
  | st, rel_step :: rest =>
      traverseRelations gs ds ff (traverseStep gs ds ff st rel_step rest.head?) rest

/-- Append a document under its link-field key in the hash lookup
(Python dict keyed by the field's value). -/
def lookupAppend (acc : List (Value × List Doc)) (k : Value) (d : Doc) :
    List (Value × List Doc) :=
  match acc with
  | [] => [(k, [d])]
  | (k1, ds1) :: rest =>
      if pyEq k1 k then (k1, ds1 ++ [d]) :: rest else (k1, ds1) :: lookupAppend rest k d

/-- `target_lookup.get(v, [])`. -/
def lookupGet (acc : List (Value × List Doc)) (k : Value) : List Doc :=
  match acc.find? (fun p => pyEq p.1 k) with
  | some p => p.2
  | none => []

/-- Build the hash lookup of a hop's target dataset keyed by its link
field, skipping documents whose key is missing or null (lines 567-572). -/
def buildTargetLookup (target_link_field : String) (target_data : List Doc) :
    List (Value × List Doc) :=
  target_data.foldl
    (fun acc target_doc =>
      match alistGet target_doc target_link_field with
      | none => acc
      | some key => if key.isNull then acc else lookupAppend acc key target_doc)
    []

/-- The target documents matched by one partial record's carried link
value (lines 579-582): concatenated per-element lookups for an array
link, a single lookup for a non-null scalar, nothing otherwise. -/
def matchedTargets (lookup : List (Value × List Doc)) (is_array : Bool)
    (link_val : Value) : List Doc :=
  if is_array then
    match link_val with
    | .arr items => items.foldl (fun a it => a ++ lookupGet lookup it) []
    | _ => []
  else if link_val.isNull then []
  else lookupGet lookup link_val

/-- Extend one partial record with the in-scope fields of a matched
target document plus the link field needed by the next hop
(lines 585-588). -/
def extendRecord (target_entity_label : String) (target_fields_scope : List String)
    (next_link_field : Option String) (record : Doc) (target_doc : Doc) : Doc :=
  let base :=
    target_fields_scope.foldl
      (fun acc f =>
        if docHas target_doc f then
          dictInsert acc (target_entity_label ++ "." ++ f) (docGet target_doc f)
        else acc)
      record
  match next_link_field with
  | some nf =>
      if nf ≠ "" ∧ docHas target_doc nf then
        dictInsert base (target_entity_label ++ "." ++ nf) (docGet target_doc nf)
      else base
  | none => base

/-- One hop of the join phase applied to every partial record: the
inner-join fan-out of lines 578-589. -/
def joinStep (lookup : List (Value × List Doc)) (is_array : Bool)
    (current_link_field_prefixed : String) (target_entity_label : String)
    (target_fields_scope : List String) (next_link_field : Option String)
    (records : List Doc) : List Doc :=
  records.flatMap
    (fun record =>
      (matchedTargets lookup is_array (docGet record current_link_field_prefixed)).map
        (extendRecord target_entity_label target_fields_scope next_link_field record))

/-- The join loop over all hops (lines 558-591), carrying the partial
records together with the previous entity's label and node id.  An empty
recorded dataset or an unresolvable join link empties the result and
stops; a vanished target node stops keeping the current records (only
reachable when its recorded dataset is non-empty). -/
def joinLoop (gs : GraphState) (ff : FinalFields)
    (processed : List (String × List Doc)) :
    List RelStep → String → String → List Doc → List Doc
  | [], _last_label, _last_id, current => current
  | rel_step :: rest, last_label, last_id, current =>
    let target_entity_label := rel_step.target_entity
    let target_data := (alistGet processed target_entity_label).getD []
    if target_data.isEmpty then []
    else
      match find_entity_node gs target_entity_label with
      | none => current
      | some target_node =>
        match _get_relationship_link_fields gs (some last_id) rel_step with
        | none => []
        | some link_info =>
          let current_link_field_prefixed :=
            last_label ++ "." ++ link_info.start_entity_link_field
          let target_lookup :=
            buildTargetLookup link_info.target_entity_link_field target_data
          let next_link_field :=
            match rest.head? with
            | some nx =>
              match _get_relationship_link_fields gs (some target_node.id) nx with
              | some nli => some nli.start_entity_link_field
              | none => none
            | none => none
          let target_fields_scope := _get_fields_scope gs ff target_entity_label target_node.id
          let next_joined :=
            joinStep target_lookup link_info.start_entity_link_is_array
              current_link_field_prefixed target_entity_label target_fields_scope
              next_link_field current
          if next_joined.isEmpty then []
          else joinLoop gs ff processed rest target_entity_label target_node.id next_joined

/-- The initial partial records (lines 551-556): one per start document,
holding its in-scope fields plus the first hop's link field, each key
prefixed by the start entity label; a record that ends up empty is
dropped. -/
def buildStartRecords (start_entity_label : String) (start_fields_scope : List String)
    (first_link_field : Option String) (docs : List Doc) : List Doc :=
  docs.foldl
    (fun acc start_doc =>
      let record :=
        start_fields_scope.foldl
          (fun r f =>
            if docHas start_doc f then
              dictInsert r (start_entity_label ++ "." ++ f) (docGet start_doc f)
            else r)
          []
      let record2 :=
        match first_link_field with
        | some lf =>
            if lf ≠ "" ∧ docHas start_doc lf then
              dictInsert record (start_entity_label ++ "." ++ lf) (docGet start_doc lf)
            else record
        | none => record
      if record2.isEmpty then acc else acc ++ [record2])
    []

/-- The final cleaning pass (lines 596-601): each record is restricted to
exactly the expected headers (missing ones becoming null), and a record
whose every surviving value is null is dropped. -/
def cleanResults (headers : List String) (results : List Doc) : List Doc :=
  results.foldl
    (fun acc record =>
      let cleaned := headers.map (fun h => (h, docGet record h))
      if cleaned.any (fun p => ¬ p.2.isNull) then acc ++ [cleaned] else acc)
    []

/-- `DataManager._retrieve_related_data` (lines 467-621), result only.
`none` models the source's `return None` paths: unresolvable start
entity or start collection (line 481), unresolvable link fields for the
FIRST hop during the initial-projection setup (line 494), and the
`UnboundLocalError` of `_get_expected_headers` swallowed by the outer
`except` (line 621).  `some` carries the returned record sequence. -/
def _retrieve_related_data (gs : GraphState) (ds : DataStore) (q : RelatedQuery) :
    Option (List Doc) :=
  match find_entity_node gs q.start_entity with
  | none => none
  | some start_node =>
    if strFalsy start_node.collection_name then none
    else
      let start_collection_name := start_node.collection_name.getD ""
      let start_node_id := start_node.id
      let start_requested := (alistGet q.final_fields q.start_entity).join
      let start_metadata_fields := get_entity_fields gs start_node_id
      let start_projection0 := _build_projection start_requested start_metadata_fields
      let firstLinkRes : Option (Option LinkInfo) :=
        match q.relations.head? with
        | none => some none
        | some r1 =>
          match _get_relationship_link_fields gs (some start_node_id) r1 with
          | some li => some (some li)
          | none => none
      match firstLinkRes with
      | none => none
      | some firstLink =>
        let start_projection1 :=
          match firstLink with
          | some li => dictInsert start_projection0 li.start_entity_link_field 1
          | none => start_projection0
        let start_projection :=
          if (alistGet start_projection1 "_id").isSome then start_projection1
          else dictInsert start_projection1 "_id" 0
        let current_data := mongoFind (ds start_collection_name) q.start_filters start_projection
        if current_data.isEmpty then some []
        else
          let st0 : TravState :=
            { processed := [(q.start_entity, current_data)]
              current_entity_label := q.start_entity
              current_entity_node_id := some start_node_id }
          let stFinal := traverseRelations gs ds q.final_fields st0 q.relations
          let processed := stFinal.processed
          let startData := (alistGet processed q.start_entity).getD []
          if startData.isEmpty then
            match _get_expected_headers gs q.final_fields q.relations q.start_entity with
            | none => none
            | some _hdrs => some []
          else
            let start_fields_scope :=
              _get_fields_scope gs q.final_fields q.start_entity start_node_id
            let first_link_field :=
              match q.relations.head? with
              | none => none
              | some r1 =>
                match _get_relationship_link_fields gs (some start_node_id) r1 with
                | some li => some li.start_entity_link_field
                | none => none
            let startRecords :=
              buildStartRecords q.start_entity start_fields_scope first_link_field startData
            let final_results :=
              joinLoop gs q.final_fields processed q.relations q.start_entity
                start_node_id startRecords
            match _get_expected_headers gs q.final_fields q.relations q.start_entity with
            | none => none
            | some headers => some (cleanResults headers final_results)

/-
Derived views of a registry and of the build, used to state the graph
claims.
-/

/-- Every (source, entity) declaration of the registry, in declaration
order. -/
def entityDecls (reg : Registry) : List (SourceSchema × EntitySchema) :=
  reg.flatMap (fun src => src.entities.map (fun e => (src, e)))

/-- The declared entity labels, in declaration order. -/
def entityLabels (reg : Registry) : List String :=
  (entityDecls reg).map (fun p => p.2.label)

/-- The entity node pass 1 constructs for one declaration. -/
def entityNodeOf (src : SourceSchema) (e : EntitySchema) : GraphNode :=
  { id := entityNodeId e.label
    type := "collection"
    label := e.label
    datasource := some src.source_name
    collection_name := some e.label
    properties :=
      [("source_system_type", Value.str src.source_type),
       ("original_entity_type", Value.str e.type)] }

/-- The field node pass 1 constructs for one field of an entity. -/
def fieldNodeOf (e : EntitySchema) (f : FieldSchema) : GraphNode :=
  { id := fieldNodeId (entityNodeId e.label) f.label
    type := "field"
    label := f.label
    properties := fieldProps f }

/-- All nodes one declaration contributes, in insertion order. -/
def entityNodesOf (p : SourceSchema × EntitySchema) : List GraphNode :=
  (entityNodeOf p.1 p.2).stored :: p.2.fieldDecls.map (fieldNodeOf p.2)

/-- All HAS_FIELD edges one declaration contributes, in insertion order. -/
def hasFieldEdgesOf (e : EntitySchema) : List GraphEdge :=
  e.fieldDecls.map (fun f =>
    { source := entityNodeId e.label
      target := fieldNodeId (entityNodeId e.label) f.label
      relation := "HAS_FIELD"
      properties := [] })

/-- The node ids one declaration derives (entity id first, then its
field ids in order). -/
def declNodeIds (p : SourceSchema × EntitySchema) : List String :=
  entityNodeId p.2.label ::
    p.2.fieldDecls.map (fun f => fieldNodeId (entityNodeId p.2.label) f.label)

/-- Every derived node id of the registry, in insertion order. -/
def allDerivedIds (reg : Registry) : List String :=
  (entityDecls reg).flatMap declNodeIds

/-- A registry whose derived node ids are pairwise distinct: no two
declarations (entity or field) collide on a normalised id.  This is the
side condition under which the graph claims hold; it is decidable and
satisfied by the repository's schema registry. -/
def goodRegistry (reg : Registry) : Prop := (allDerivedIds reg).Nodup

instance (reg : Registry) : Decidable (goodRegistry reg) :=
  inferInstanceAs (Decidable (allDerivedIds reg).Nodup)

/-- The resolvable foreign keys among a field list, as
`(entity label, field label, referenced label)` triples: every field
flagged `is_foreign_key` whose truthy `references` target is a declared
label, in declaration order. -/
def resolvableFKsOfFields (labels : List String) (elabel : String)
    (fields : List FieldSchema) : List (String × String × String) :=
  fields.filterMap (fun f =>
    match f.references with
    | some t =>
        if f.is_foreign_key ∧ t ≠ "" ∧ t ∈ labels then some (elabel, f.label, t)
        else none
    | none => none)

/-- The resolvable foreign keys of one entity declaration. -/
def entityResolvableFKs (labels : List String) (e : EntitySchema) :
    List (String × String × String) :=
  resolvableFKsOfFields labels e.label e.fieldDecls

/-- The resolvable foreign-key declarations pass 2 creates edges for,
in declaration order. -/
def resolvableFKs (reg : Registry) : List (String × String × String) :=
  (entityDecls reg).flatMap (fun p => entityResolvableFKs (entityLabels reg) p.2)

/-- The REFERENCES edge pass 2 derives from one resolvable foreign key. -/
def refEdgeOf (fk : String × String × String) : GraphEdge :=
  { source := entityNodeId fk.1
    target := entityNodeId fk.2.2
    relation := "REFERENCES"
    properties := [("on_field", Value.str fk.2.1)] }

/-- The upsert key (source id, target id) of each resolvable foreign
key's REFERENCES edge, in declaration order. -/
def fkEdgeKeys (reg : Registry) : List (String × String) :=
  (resolvableFKs reg).map (fun fk => (entityNodeId fk.1, entityNodeId fk.2.2))

/-
Concrete fixtures: the spec's Scenario A schema (Students, Enrollments,
Courses), its graph, and sample data stores, used to instantiate the
claim theorems at concrete inputs.
-/

/-- Scenario A registry: `Students(StudentID pk, Major)`,
`Enrollments(EnrollmentID pk, StudentID fk, CourseID fk)`,
`Courses(CourseID pk, CourseName)`. -/
def regA : Registry :=
  [{ source_type := "relational", source_name := "UniversityDB",
     entities :=
      [{ type := "table", label := "Students",
         columns := [{ label := "StudentID", data_type := some "INT", is_primary_key := true },
                     { label := "Major", data_type := some "VARCHAR(100)" }] },
       { type := "table", label := "Enrollments",
         columns := [{ label := "EnrollmentID", data_type := some "INT", is_primary_key := true },
                     { label := "StudentID", data_type := some "INT", is_foreign_key := true,
                       references := some "Students" },
                     { label := "CourseID", data_type := some "INT", is_foreign_key := true,
                       references := some "Courses" }] },
       { type := "table", label := "Courses",
         columns := [{ label := "CourseID", data_type := some "INT", is_primary_key := true },
                     { label := "CourseName", data_type := some "VARCHAR(100)" }] }] }]

/-- The metadata graph compiled from the Scenario A registry. -/
def gA : GraphState := build_graph_from_schema { nodes := [], edges := [] } regA

/-- Scenario A data: one student, one enrollment, one course. -/
def dsA : DataStore := fun c =>
  if c = "Students" then [[("StudentID", .num 1001), ("Major", .str "CS")]]
  else if c = "Enrollments" then
    [[("EnrollmentID", .num 1), ("StudentID", .num 1001), ("CourseID", .num 101)]]
  else if c = "Courses" then [[("CourseID", .num 101), ("CourseName", .str "Intro")]]
  else []

/-- Scenario A data with a globally empty Enrollments collection. -/
def dsAEmptyEnrollments : DataStore := fun c =>
  if c = "Enrollments" then [] else dsA c

/-- The entity node the Scenario A graph stores for Students. -/
def studentsNodeA : GraphNode :=
  { id := "collection_students", type := "collection", label := "Students"
    properties := [("source_system_type", .str "relational"),
                   ("original_entity_type", .str "table")]
    datasource := some "UniversityDB", collection_name := some "Students" }

/-- Scenario A traversal query: Students(1001), in to Enrollments, out to
Courses, selecting Students.Major and Courses.CourseName. -/
def qA : RelatedQuery :=
  { start_entity := "Students"
    start_filters := [.eqCond "StudentID" (.num 1001)]
    relations :=
      [{ target_entity := "Enrollments", relation := some "REFERENCES", direction := some "in" },
       { target_entity := "Courses", relation := some "REFERENCES", direction := some "out" }]
    final_fields := [("Students", some ["Major"]), ("Courses", some ["CourseName"])] }

/-- Scenario B query: same shape as Scenario A but filtering on the
non-existent StudentID 9999. -/
def qB : RelatedQuery :=
  { qA with start_filters := [.eqCond "StudentID" (.num 9999)] }

/-- A fresh source declaring one new entity `Clubs`, used to extend the
Scenario A registry. -/
def srcClubs : SourceSchema :=
  { source_type := "document", source_name := "ClubsFeed"
    entities := [{ type := "json_objects", label := "Clubs"
                   fields := [{ label := "ClubID", data_type := some "STRING",
                                is_primary_key := true }] }] }

/-- A registry where entity `E` declares two foreign keys to the same
target `T` (fields `a` and `b`). -/
def regC4 : Registry :=
  [{ source_type := "relational", source_name := "S"
     entities :=
      [{ type := "table", label := "T"
         columns := [{ label := "id", data_type := some "INT", is_primary_key := true }] },
       { type := "table", label := "E"
         columns := [{ label := "eid", data_type := some "INT", is_primary_key := true },
                     { label := "a", data_type := some "INT", is_foreign_key := true,
                       references := some "T" },
                     { label := "b", data_type := some "INT", is_foreign_key := true,
                       references := some "T" }] }] }]

/-- A registry whose two distinct (entity, field) pairs derive the same
field node id: entity `A` with field `B_C` and entity `A B` with field
`C` both derive `collection_a_b_c`. -/
def regC8 : Registry :=
  [{ source_type := "relational", source_name := "S"
     entities :=
      [{ type := "table", label := "A"
         columns := [{ label := "B_C", data_type := some "INT" }] },
       { type := "table", label := "A B"
         columns := [{ label := "C", data_type := some "INT" }] }] }]

/-- The `current_entity_node_id` carried out of one traversal step,
computed from the step's scrutinees alone (the recorded dataset never
feeds back into it): the target node's id when the upstream id is present
and the target entity resolves with a truthy collection, `none`
otherwise. -/
def stepCurId (gs : GraphState) (cur : Option String) (r : RelStep) : Option String :=
  match cur with
  | none => none
  | some _ =>
    match find_entity_node gs r.target_entity with
    | none => none
    | some tn => if strFalsy tn.collection_name then none else some tn.id

/-- The `current_entity_node_id` after a sequence of traversal steps. -/
def travCurrentId (gs : GraphState) : Option String → List RelStep → Option String
  | cur, [] => cur
  | cur, r :: rest => travCurrentId gs (stepCurId gs cur r) rest

/-- A Scenario A traversal query whose single (hence first) hop has no
REFERENCES edge to resolve: Students and Courses are only connected
through Enrollments. -/
def qC5 : RelatedQuery :=
  { start_entity := "Students"
    start_filters := []
    relations := [{ target_entity := "Courses", direction := some "out" }]
    final_fields := [("Students", some ["Major"]), ("Courses", some ["CourseName"])] }

/-- A Scenario A traversal query whose second hop cannot be resolved:
the hop from Enrollments to Courses carries no `direction`, which the
link resolution rejects. -/
def qC5b : RelatedQuery :=
  { start_entity := "Students"
    start_filters := []
    relations :=
      [{ target_entity := "Enrollments", relation := some "REFERENCES", direction := some "in" },
       { target_entity := "Courses", relation := some "REFERENCES", direction := none }]
    final_fields := [("Students", some ["Major"]), ("Courses", some ["CourseName"])] }

/-- The first Scenario A hop: in to Enrollments over REFERENCES. -/
def relEnrollIn : RelStep :=
  { target_entity := "Enrollments", relation := some "REFERENCES",
    direction := some "in" }

/-- The second Scenario A hop: out to Courses over REFERENCES. -/
def relCoursesOut : RelStep :=
  { target_entity := "Courses", relation := some "REFERENCES",
    direction := some "out" }

/-- The entity node the Scenario A graph stores for Enrollments. -/
def enrollmentsNodeA : GraphNode :=
  { id := "collection_enrollments", type := "collection", label := "Enrollments"
    properties := [("source_system_type", Value.str "relational"),
                   ("original_entity_type", Value.str "table")]
    datasource := some "UniversityDB", collection_name := some "Enrollments" }

/-
Shared helper lemmas about association lists and dictionaries.
-/

theorem alistGet_cons (k1 : String) (v1 : α) (rest : List (String × α)) (k : String) :
    alistGet ((k1, v1) :: rest) k = if k1 = k then some v1 else alistGet rest k := by
  by_cases h : k1 = k <;> simp [alistGet, List.find?, h]

theorem alistGet_dictInsert (d : List (String × α)) (k k' : String) (v : α) :
    alistGet (dictInsert d k v) k' = if k = k' then some v else alistGet d k' := by
  induction d with
  | nil => by_cases h : k = k' <;> simp [dictInsert, alistGet_cons, alistGet, h]
  | cons p rest ih =>
      obtain ⟨k1, v1⟩ := p
      by_cases h1 : k1 = k
      · subst h1
        by_cases h2 : k1 = k' <;> simp [dictInsert, alistGet_cons, h2]
      · by_cases h2 : k1 = k'
        · subst h2
          have hkk : ¬ k = k1 := fun h => h1 h.symm
          simp [dictInsert, h1, alistGet_cons, hkk]
        · simp [dictInsert, h1, alistGet_cons, h2, ih]

theorem fst_mem_dictInsert (d : List (String × α)) (k : String) (v : α) :
    ∀ p ∈ dictInsert d k v, p.1 = k ∨ p ∈ d := by
  induction d with
  | nil => intro p hp; simp [dictInsert] at hp; subst hp; left; rfl
  | cons q rest ih =>
      obtain ⟨k1, v1⟩ := q
      intro p hp
      by_cases h1 : k1 = k
      · simp only [dictInsert, if_pos h1] at hp
        rcases List.mem_cons.mp hp with hp | hp
        · left; rw [hp, h1]
        · right; exact List.mem_cons_of_mem _ hp
      · simp only [dictInsert, if_neg h1] at hp
        rcases List.mem_cons.mp hp with hp | hp
        · right; rw [hp]; exact List.mem_cons_self _ _
        · rcases ih p hp with h | h
          · left; exact h
          · right; exact List.mem_cons_of_mem _ h

theorem keys_dictInsert (d : List (String × α)) (k : String) (v : α) :
    (dictInsert d k v).map Prod.fst =
      if k ∈ d.map Prod.fst then d.map Prod.fst else d.map Prod.fst ++ [k] := by
  induction d with
  | nil => simp [dictInsert]
  | cons q rest ih =>
      obtain ⟨k1, v1⟩ := q
      by_cases h1 : k1 = k
      · subst h1; simp [dictInsert]
      · have hne : ¬ k = k1 := fun h => h1 h.symm
        by_cases h2 : k ∈ rest.map Prod.fst <;>
          simp [dictInsert, h1, ih, h2, hne]

theorem keys_nodup_dictInsert (d : List (String × α)) (k : String) (v : α)
    (h : (d.map Prod.fst).Nodup) : ((dictInsert d k v).map Prod.fst).Nodup := by
  rw [keys_dictInsert]
  by_cases hmem : k ∈ d.map Prod.fst
  · simpa [hmem] using h
  · simp only [hmem, if_false]
    rw [List.nodup_append]
    exact ⟨h, List.nodup_singleton k, by simpa using hmem⟩

theorem alistGet_foldl_dictInsert (fs : List String) (acc : List (String × Nat))
    (f : String) :
    alistGet (fs.foldl (fun a x => dictInsert a x 1) acc) f =
      if f ∈ fs then some 1 else alistGet acc f := by
  induction fs generalizing acc with
  | nil => simp
  | cons x xs ih =>
      simp only [List.foldl_cons, ih, List.mem_cons]
      by_cases hxs : f ∈ xs
      · simp [hxs]
      · by_cases hx : f = x
        · subst hx; simp [hxs, alistGet_dictInsert]
        · have : ¬ x = f := fun h => hx h.symm
          simp [hxs, hx, alistGet_dictInsert, this]

theorem fst_mem_foldl_dictInsert (fs : List String) (acc : List (String × Nat)) :
    ∀ p ∈ fs.foldl (fun a x => dictInsert a x 1) acc, p.1 ∈ fs ∨ p ∈ acc := by
  induction fs generalizing acc with
  | nil => intro p hp; right; simpa using hp
  | cons x xs ih =>
      intro p hp
      simp only [List.foldl_cons] at hp
      rcases ih (dictInsert acc x 1) p hp with h | h
      · left; simp [h]
      · rcases fst_mem_dictInsert acc x 1 p h with h2 | h2
        · left; simp [h2]
        · right; exact h2

theorem keys_nodup_foldl_dictInsert (fs : List String) (acc : List (String × Nat))
    (h : (acc.map Prod.fst).Nodup) :
    ((fs.foldl (fun a x => dictInsert a x 1) acc).map Prod.fst).Nodup := by
  induction fs generalizing acc with
  | nil => simpa using h
  | cons x xs ih =>
      simp only [List.foldl_cons]
      exact ih _ (keys_nodup_dictInsert acc x 1 h)

/-
Characterisation of the graph build under id-collision freedom.
-/

theorem GraphNode_save_fresh (n : GraphNode) (nodes : List GraphNode)
    (h : ∀ m ∈ nodes, m.id ≠ n.id) :
    GraphNode.save n nodes = nodes ++ [n.stored] := by
  have hc : nodes.any (fun m => m.id = n.id) = false := by
    rw [← Bool.not_eq_true]
    intro hc
    simp only [List.any_eq_true, decide_eq_true_eq] at hc
    obtain ⟨m, hm, he⟩ := hc
    exact h m hm he
  unfold GraphNode.save
  simp [hc]

theorem GraphEdge_save_fresh (e : GraphEdge) (edges : List GraphEdge)
    (h : ∀ d ∈ edges, ¬(d.source = e.source ∧ d.target = e.target ∧ d.relation = e.relation)) :
    GraphEdge.save e edges = edges ++ [e] := by
  have hc : edges.any
      (fun d => d.source = e.source ∧ d.target = e.target ∧ d.relation = e.relation) = false := by
    rw [← Bool.not_eq_true]
    intro hc
    simp only [List.any_eq_true, decide_eq_true_eq] at hc
    obtain ⟨d, hd, he⟩ := hc
    exact h d hd he
  unfold GraphEdge.save
  rw [hc]
  rfl

theorem entityNodesOf_ids (p : SourceSchema × EntitySchema) :
    (entityNodesOf p).map (fun n => n.id) = declNodeIds p := by
  simp [entityNodesOf, declNodeIds, GraphNode.stored, entityNodeOf, fieldNodeOf,
    List.map_map]

theorem foldl_processField_eq (eid : String) :
    ∀ (fields : List FieldSchema) (nodes : List GraphNode) (edges : List GraphEdge),
      (∀ f ∈ fields, ∀ m ∈ nodes, m.id ≠ fieldNodeId eid f.label) →
      (fields.map (fun f => fieldNodeId eid f.label)).Nodup →
      (∀ f ∈ fields, ∀ ed ∈ edges, ed.target ≠ fieldNodeId eid f.label) →
      fields.foldl (processField eid) (nodes, edges) =
        (nodes ++ fields.map (fun f =>
           { id := fieldNodeId eid f.label, type := "field", label := f.label,
             properties := fieldProps f }),
         edges ++ fields.map (fun f =>
           { source := eid, target := fieldNodeId eid f.label, relation := "HAS_FIELD",
             properties := [] })) := by
  intro fields
  induction fields with
  | nil => intro nodes edges _ _ _; simp
  | cons f fs ih =>
      intro nodes edges hfresh hnodup hedges
      have hnode := GraphNode_save_fresh
        { id := fieldNodeId eid f.label, type := "field", label := f.label,
          properties := fieldProps f } nodes
        (fun m hm => hfresh f (List.mem_cons_self f fs) m hm)
      have hedge := GraphEdge_save_fresh
        { source := eid, target := fieldNodeId eid f.label, relation := "HAS_FIELD",
          properties := [] } edges
        (fun d hd hdk => hedges f (List.mem_cons_self f fs) d hd hdk.2.1)
      have hstep : processField eid (nodes, edges) f =
          (nodes ++ [{ id := fieldNodeId eid f.label, type := "field", label := f.label,
                       properties := fieldProps f }],
           edges ++ [{ source := eid, target := fieldNodeId eid f.label,
                       relation := "HAS_FIELD", properties := [] }]) := by
        unfold processField
        dsimp only
        rw [hnode, hedge]
        rfl
      simp only [List.foldl_cons, hstep]
      rw [ih]
      · simp
      · intro g hg m hm
        rcases List.mem_append.mp hm with hm | hm
        · exact hfresh g (List.mem_cons_of_mem f hg) m hm
        · simp only [List.mem_singleton] at hm
          subst hm
          simp only [List.map_cons, List.nodup_cons] at hnodup
          show fieldNodeId eid f.label ≠ fieldNodeId eid g.label
          intro he
          refine hnodup.1 ?_
          rw [he]
          exact List.mem_map_of_mem (fun f => fieldNodeId eid f.label) hg
      · simp only [List.map_cons, List.nodup_cons] at hnodup
        exact hnodup.2
      · intro g hg ed hed
        rcases List.mem_append.mp hed with hed | hed
        · exact hedges g (List.mem_cons_of_mem f hg) ed hed
        · simp only [List.mem_singleton] at hed
          subst hed
          simp only [List.map_cons, List.nodup_cons] at hnodup
          show fieldNodeId eid f.label ≠ fieldNodeId eid g.label
          intro he
          refine hnodup.1 ?_
          rw [he]
          exact List.mem_map_of_mem (fun f => fieldNodeId eid f.label) hg

theorem processEntity_eq (src : SourceSchema) (e : EntitySchema) (st : BuildState)
    (hfresh : ∀ i ∈ declNodeIds (src, e), ∀ m ∈ st.graph.nodes, m.id ≠ i)
    (hnodup : (declNodeIds (src, e)).Nodup)
    (hedges : ∀ f ∈ e.fieldDecls, ∀ ed ∈ st.graph.edges,
        ed.target ≠ fieldNodeId (entityNodeId e.label) f.label) :
    processEntity src st e =
      { graph := { nodes := st.graph.nodes ++ entityNodesOf (src, e)
                   edges := st.graph.edges ++ hasFieldEdgesOf e }
        cache := dictInsert st.cache e.label (entityNodeId e.label)
        fkPending := st.fkPending ++ [(entityNodeOf src e, e)] } := by
  unfold processEntity
  have hsave : GraphNode.save
      { id := entityNodeId e.label, type := "collection", label := e.label
        datasource := some src.source_name, collection_name := some e.label
        properties := [("source_system_type", Value.str src.source_type),
                       ("original_entity_type", Value.str e.type)] }
      st.graph.nodes =
      st.graph.nodes ++ [(entityNodeOf src e).stored] := by
    refine GraphNode_save_fresh _ _ ?_
    intro m hm
    exact hfresh (entityNodeId e.label) (List.mem_cons_self _ _) m hm
  have hffold := foldl_processField_eq (entityNodeId e.label) e.fieldDecls
    (st.graph.nodes ++ [(entityNodeOf src e).stored]) st.graph.edges
    (by
      intro f hf m hm
      rcases List.mem_append.mp hm with hm | hm
      · refine hfresh _ ?_ m hm
        simp only [declNodeIds, List.mem_cons]
        right
        exact List.mem_map_of_mem _ hf
      · simp only [List.mem_singleton] at hm
        subst hm
        simp only [declNodeIds, List.nodup_cons] at hnodup
        show entityNodeId e.label ≠ fieldNodeId (entityNodeId e.label) f.label
        intro he
        exact hnodup.1 (List.mem_map.mpr ⟨f, hf, he.symm⟩))
    (by
      simp only [declNodeIds, List.nodup_cons] at hnodup
      exact hnodup.2)
    (by intro f hf ed hed; exact hedges f hf ed hed)
  dsimp only
  rw [hsave, hffold]
  simp [entityNodesOf, hasFieldEdgesOf, fieldNodeOf, entityNodeOf]

theorem foldl_entityDecls (schemas : Registry) (st : BuildState) :
    schemas.foldl (fun acc source => source.entities.foldl (processEntity source) acc) st =
      (entityDecls schemas).foldl (fun acc p => processEntity p.1 acc p.2) st := by
  induction schemas generalizing st with
  | nil => rfl
  | cons src rest ih =>
      simp only [List.foldl_cons, entityDecls, List.flatMap_cons, List.foldl_append,
        List.foldl_map]
      exact ih _

theorem pass1_eq :
    ∀ (decls : List (SourceSchema × EntitySchema)) (st : BuildState),
      ((st.graph.nodes.map (fun n => n.id)) ++ decls.flatMap declNodeIds).Nodup →
      (∀ ed ∈ st.graph.edges, ed.target ∈ st.graph.nodes.map (fun n => n.id)) →
      decls.foldl (fun acc p => processEntity p.1 acc p.2) st =
        { graph := { nodes := st.graph.nodes ++ decls.flatMap entityNodesOf
                     edges := st.graph.edges ++
                       decls.flatMap (fun p => hasFieldEdgesOf p.2) }
          cache := decls.foldl
            (fun c p => dictInsert c p.2.label (entityNodeId p.2.label)) st.cache
          fkPending := st.fkPending ++
            decls.map (fun p => (entityNodeOf p.1 p.2, p.2)) } := by
  intro decls
  induction decls with
  | nil => intro st _ _; simp
  | cons p rest ih =>
      intro st hno hedge
      obtain ⟨src, e⟩ := p
      rw [List.flatMap_cons] at hno
      have hnoA : ((st.graph.nodes.map (fun n => n.id)) ++
          (declNodeIds (src, e) ++ rest.flatMap declNodeIds)).Nodup := hno
      rw [List.nodup_append] at hnoA
      obtain ⟨hA, hBC, hdisj⟩ := hnoA
      rw [List.nodup_append] at hBC
      obtain ⟨hB, hC, hBCdisj⟩ := hBC
      have hfresh : ∀ i ∈ declNodeIds (src, e), ∀ m ∈ st.graph.nodes, m.id ≠ i := by
        intro i hi m hm he
        exact hdisj (he ▸ List.mem_map_of_mem (fun n => n.id) hm) (List.mem_append_left _ hi)
      have hedges : ∀ f ∈ e.fieldDecls, ∀ ed ∈ st.graph.edges,
          ed.target ≠ fieldNodeId (entityNodeId e.label) f.label := by
        intro f hf ed hed he
        refine hdisj (he ▸ hedge ed hed) (List.mem_append_left _ ?_)
        simp only [declNodeIds, List.mem_cons]
        right
        exact List.mem_map_of_mem _ hf
      simp only [List.foldl_cons]
      rw [processEntity_eq src e st hfresh hB hedges]
      rw [ih]
      · simp [List.append_assoc]
      · simp only [List.map_append, entityNodesOf_ids]
        rw [List.append_assoc]
        exact hno
      · intro ed hed
        simp only [List.map_append, entityNodesOf_ids]
        rcases List.mem_append.mp hed with hed | hed
        · exact List.mem_append_left _ (hedge ed hed)
        · refine List.mem_append_right _ ?_
          simp only [hasFieldEdgesOf, List.mem_map] at hed
          obtain ⟨f, hf, he⟩ := hed
          rw [← he]
          simp only [declNodeIds, List.mem_cons]
          right
          exact List.mem_map_of_mem _ hf

theorem cache_get (decls : List (SourceSchema × EntitySchema))
    (c0 : List (String × String)) (l : String) :
    alistGet (decls.foldl
        (fun c p => dictInsert c p.2.label (entityNodeId p.2.label)) c0) l =
      if l ∈ decls.map (fun p => p.2.label) then some (entityNodeId l)
      else alistGet c0 l := by
  induction decls generalizing c0 with
  | nil => simp
  | cons p rest ih =>
      simp only [List.foldl_cons, ih, List.map_cons, List.mem_cons]
      by_cases hl : l ∈ rest.map (fun p => p.2.label)
      · simp [hl]
      · by_cases he : l = p.2.label
        · simp [hl, he, alistGet_dictInsert]
        · have hne : ¬ p.2.label = l := fun hh => he hh.symm
          simp [hl, he, alistGet_dictInsert, hne]

theorem mem_resolvableFKsOfFields_label (L : List String) (elabel : String)
    (fields : List FieldSchema) :
    ∀ fk ∈ resolvableFKsOfFields L elabel fields, fk.1 = elabel := by
  intro fk hfk
  simp only [resolvableFKsOfFields, List.mem_filterMap] at hfk
  obtain ⟨f, _, heq⟩ := hfk
  cases href : f.references with
  | none => rw [href] at heq; cases heq
  | some t =>
      rw [href] at heq
      dsimp only at heq
      by_cases hc : f.is_foreign_key ∧ t ≠ "" ∧ t ∈ L
      · rw [if_pos hc] at heq
        cases heq
        rfl
      · rw [if_neg hc] at heq
        cases heq

theorem nodup_snd_of_nodup_keys (elabel : String) (l : List (String × String × String))
    (hl : ∀ fk ∈ l, fk.1 = elabel)
    (h : (l.map (fun fk => (entityNodeId fk.1, entityNodeId fk.2.2))).Nodup) :
    (l.map (fun fk => entityNodeId fk.2.2)).Nodup := by
  induction l with
  | nil => simp
  | cons x xs ih =>
      simp only [List.map_cons, List.nodup_cons] at h ⊢
      refine ⟨?_, ih (fun fk hfk => hl fk (List.mem_cons_of_mem x hfk)) h.2⟩
      intro hmem
      refine h.1 ?_
      simp only [List.mem_map] at hmem ⊢
      obtain ⟨y, hy, hey⟩ := hmem
      refine ⟨y, hy, ?_⟩
      rw [hl y (List.mem_cons_of_mem x hy), hl x (List.mem_cons_self x xs), hey]

theorem fk_fields_fold_eq (cache : List (String × String)) (L : List String)
    (hcache : ∀ t, alistGet cache t = if t ∈ L then some (entityNodeId t) else none)
    (elabel : String) :
    ∀ (fields : List FieldSchema) (edges : List GraphEdge),
      (∀ fk ∈ resolvableFKsOfFields L elabel fields, ∀ d ∈ edges,
        ¬(d.source = entityNodeId elabel ∧ d.target = entityNodeId fk.2.2 ∧
          d.relation = "REFERENCES")) →
      ((resolvableFKsOfFields L elabel fields).map
        (fun fk => entityNodeId fk.2.2)).Nodup →
      fields.foldl
        (fun acc field =>
          match field.references with
          | some target_entity_label =>
              if field.is_foreign_key ∧ target_entity_label ≠ "" then
                match alistGet cache target_entity_label with
                | some target_entity_node_id =>
                    GraphEdge.save
                      { source := entityNodeId elabel
                        target := target_entity_node_id
                        relation := "REFERENCES"
                        properties := [("on_field", Value.str field.label)] } acc
                | none => acc
              else acc
          | none => acc)
        edges =
        edges ++ (resolvableFKsOfFields L elabel fields).map refEdgeOf := by
  intro fields
  induction fields with
  | nil => intro edges _ _; simp [resolvableFKsOfFields]
  | cons f fs ih =>
      intro edges hfresh hnodup
      simp only [List.foldl_cons]
      cases href : f.references with
      | none =>
          have hres : resolvableFKsOfFields L elabel (f :: fs) =
              resolvableFKsOfFields L elabel fs := by
            simp [resolvableFKsOfFields, List.filterMap_cons, href]
          rw [hres] at hfresh hnodup
          simp only [href]
          rw [hres]
          exact ih edges hfresh hnodup
      | some t =>
          by_cases hc1 : f.is_foreign_key ∧ t ≠ ""
          · by_cases hM : t ∈ L
            · have hcond : f.is_foreign_key ∧ t ≠ "" ∧ t ∈ L := ⟨hc1.1, hc1.2, hM⟩
              have hres : resolvableFKsOfFields L elabel (f :: fs) =
                  (elabel, f.label, t) :: resolvableFKsOfFields L elabel fs := by
                simp [resolvableFKsOfFields, List.filterMap_cons, href, hcond]
              rw [hres] at hfresh hnodup
              have hsave : GraphEdge.save
                  { source := entityNodeId elabel, target := entityNodeId t
                    relation := "REFERENCES"
                    properties := [("on_field", Value.str f.label)] } edges =
                  edges ++ [refEdgeOf (elabel, f.label, t)] := by
                refine GraphEdge_save_fresh _ _ ?_
                intro d hd hk
                exact hfresh (elabel, f.label, t) (List.mem_cons_self _ _) d hd hk
              simp only [href, if_pos hc1, hcache t, if_pos hM, hsave]
              rw [ih (edges ++ [refEdgeOf (elabel, f.label, t)])]
              · rw [hres]
                simp [List.append_assoc]
              · intro fk hfk d hd hk
                rcases List.mem_append.mp hd with hd | hd
                · exact hfresh fk (List.mem_cons_of_mem _ hfk) d hd hk
                · simp only [List.mem_singleton] at hd
                  subst hd
                  simp only [List.map_cons, List.nodup_cons] at hnodup
                  refine hnodup.1 ?_
                  have : entityNodeId t = entityNodeId fk.2.2 := hk.2.1
                  rw [show entityNodeId ((elabel, f.label, t) : String × String × String).2.2 =
                    entityNodeId t from rfl, this]
                  exact List.mem_map_of_mem _ hfk
              · simp only [List.map_cons, List.nodup_cons] at hnodup
                exact hnodup.2
            · have hcond : ¬ (f.is_foreign_key ∧ t ≠ "" ∧ t ∈ L) :=
                fun h => hM h.2.2
              have hres : resolvableFKsOfFields L elabel (f :: fs) =
                  resolvableFKsOfFields L elabel fs := by
                simp [resolvableFKsOfFields, List.filterMap_cons, href, hcond]
              rw [hres] at hfresh hnodup
              simp only [href, if_pos hc1, hcache t, if_neg hM]
              rw [hres]
              exact ih edges hfresh hnodup
          · have hcond : ¬ (f.is_foreign_key ∧ t ≠ "" ∧ t ∈ L) :=
              fun h => hc1 ⟨h.1, h.2.1⟩
            have hres : resolvableFKsOfFields L elabel (f :: fs) =
                resolvableFKsOfFields L elabel fs := by
              simp [resolvableFKsOfFields, List.filterMap_cons, href, hcond]
            rw [hres] at hfresh hnodup
            simp only [href, if_neg hc1]
            rw [hres]
            exact ih edges hfresh hnodup

theorem processForeignKeys_eq (cache : List (String × String)) (L : List String)
    (hcache : ∀ t, alistGet cache t = if t ∈ L then some (entityNodeId t) else none)
    (src : SourceSchema) (e : EntitySchema) (edges : List GraphEdge)
    (hfresh : ∀ fk ∈ entityResolvableFKs L e, ∀ d ∈ edges,
      ¬(d.source = entityNodeId e.label ∧ d.target = entityNodeId fk.2.2 ∧
        d.relation = "REFERENCES"))
    (hnodup : ((entityResolvableFKs L e).map (fun fk => entityNodeId fk.2.2)).Nodup) :
    processForeignKeys cache edges (entityNodeOf src e, e) =
      edges ++ (entityResolvableFKs L e).map refEdgeOf := by
  unfold processForeignKeys
  dsimp only [entityNodeOf]
  exact fk_fields_fold_eq cache L hcache e.label e.fieldDecls edges hfresh hnodup

theorem pass2_eq (cache : List (String × String)) (L : List String)
    (hcache : ∀ t, alistGet cache t = if t ∈ L then some (entityNodeId t) else none) :
    ∀ (decls : List (SourceSchema × EntitySchema)) (edges : List GraphEdge),
      (∀ fk ∈ decls.flatMap (fun p => entityResolvableFKs L p.2), ∀ d ∈ edges,
        ¬(d.source = entityNodeId fk.1 ∧ d.target = entityNodeId fk.2.2 ∧
          d.relation = "REFERENCES")) →
      ((decls.flatMap (fun p => entityResolvableFKs L p.2)).map
        (fun fk => (entityNodeId fk.1, entityNodeId fk.2.2))).Nodup →
      decls.foldl
        (fun acc p => processForeignKeys cache acc (entityNodeOf p.1 p.2, p.2)) edges =
        edges ++ (decls.flatMap (fun p => entityResolvableFKs L p.2)).map refEdgeOf := by
  intro decls
  induction decls with
  | nil => intro edges _ _; simp
  | cons p rest ih =>
      intro edges hfresh hnodup
      obtain ⟨src, e⟩ := p
      rw [List.flatMap_cons] at hfresh hnodup
      rw [List.map_append, List.nodup_append] at hnodup
      obtain ⟨hnodH, hnodT, hnodD⟩ := hnodup
      have hlabel := mem_resolvableFKsOfFields_label L e.label e.fieldDecls
      have hfreshH : ∀ fk ∈ entityResolvableFKs L e, ∀ d ∈ edges,
          ¬(d.source = entityNodeId e.label ∧ d.target = entityNodeId fk.2.2 ∧
            d.relation = "REFERENCES") := by
        intro fk hfk d hd hk
        refine hfresh fk (List.mem_append_left _ hfk) d hd ?_
        rw [hlabel fk hfk]
        exact hk
      simp only [List.foldl_cons]
      rw [processForeignKeys_eq cache L hcache src e edges hfreshH
          (nodup_snd_of_nodup_keys e.label _ hlabel hnodH)]
      rw [ih (edges ++ (entityResolvableFKs L e).map refEdgeOf)]
      · simp [List.append_assoc]
      · intro fk hfk d hd hk
        rcases List.mem_append.mp hd with hd | hd
        · exact hfresh fk (List.mem_append_right _ hfk) d hd hk
        · simp only [List.mem_map] at hd
          obtain ⟨fkH, hfkH, hde⟩ := hd
          refine hnodD ?_ (List.mem_map_of_mem _ hfk)
          have h1 : entityNodeId fkH.1 = entityNodeId fk.1 := by
            rw [← hk.1, ← hde]; rfl
          have h2 : entityNodeId fkH.2.2 = entityNodeId fk.2.2 := by
            rw [← hk.2.1, ← hde]; rfl
          rw [List.mem_map]
          exact ⟨fkH, hfkH, by rw [h1, h2]⟩
      · exact hnodT

theorem hasFieldEdges_relation (decls : List (SourceSchema × EntitySchema)) :
    ∀ d ∈ decls.flatMap (fun p => hasFieldEdgesOf p.2), d.relation = "HAS_FIELD" := by
  intro d hd
  simp only [List.mem_flatMap, hasFieldEdgesOf, List.mem_map] at hd
  obtain ⟨p, _, f, _, he⟩ := hd
  rw [← he]

/-- Full characterisation of the build: under id-collision freedom and
pairwise-distinct REFERENCES keys, the graph is exactly the plainly
listed nodes, HAS_FIELD edges, and one REFERENCES edge per resolvable
foreign key, in declaration order. -/
theorem build_eq (reg : Registry) (st : GraphState) (h : goodRegistry reg)
    (hfk : (fkEdgeKeys reg).Nodup) :
    build_graph_from_schema st reg =
      { nodes := (entityDecls reg).flatMap entityNodesOf
        edges := (entityDecls reg).flatMap (fun p => hasFieldEdgesOf p.2) ++
          (resolvableFKs reg).map refEdgeOf } := by
  have hcache : ∀ t,
      alistGet ((entityDecls reg).foldl
        (fun c p => dictInsert c p.2.label (entityNodeId p.2.label)) []) t =
      if t ∈ entityLabels reg then some (entityNodeId t) else none := by
    intro t
    rw [cache_get]
    rfl
  unfold build_graph_from_schema clear_graph
  dsimp only
  rw [foldl_entityDecls]
  rw [pass1_eq (entityDecls reg)
      { graph := { nodes := [], edges := [] }, cache := [], fkPending := [] }
      (by simpa [allDerivedIds] using h) (by intro ed hed; cases hed)]
  dsimp only
  rw [List.nil_append, List.nil_append, List.nil_append, List.foldl_map]
  rw [pass2_eq ((entityDecls reg).foldl
        (fun c p => dictInsert c p.2.label (entityNodeId p.2.label)) [])
      (entityLabels reg) hcache (entityDecls reg)
      ((entityDecls reg).flatMap (fun p => hasFieldEdgesOf p.2))
      (by
        intro fk hfk2 d hd hk
        have := hasFieldEdges_relation (entityDecls reg) d hd
        rw [this] at hk
        exact absurd hk.2.2 (by decide))
      hfk]
  rfl

theorem find_entity_node_plain :
    ∀ (decls : List (SourceSchema × EntitySchema)) (l : String),
      l ∈ decls.map (fun p => p.2.label) →
      ∃ n, (decls.flatMap entityNodesOf).find?
          (fun n => n.label = l ∧ n.type = "collection") = some n ∧
        n.id = entityNodeId l := by
  intro decls
  induction decls with
  | nil => intro l hl; simp at hl
  | cons p rest ih =>
      intro l hl
      obtain ⟨src, e⟩ := p
      rw [List.flatMap_cons]
      by_cases hez : e.label = l
      · refine ⟨(entityNodeOf src e).stored, ?_, ?_⟩
        · have hpred : decide (((entityNodeOf src e).stored).label = l ∧
              ((entityNodeOf src e).stored).type = "collection") = true := by
            simp [GraphNode.stored, entityNodeOf, hez]
          rw [List.find?_append]
          show ((entityNodesOf (src, e)).find?
              (fun n => n.label = l ∧ n.type = "collection")).or _ = _
          rw [show entityNodesOf (src, e) =
            (entityNodeOf src e).stored :: e.fieldDecls.map (fieldNodeOf e) from rfl]
          have hfind : ((entityNodeOf src e).stored ::
              e.fieldDecls.map (fieldNodeOf e)).find?
              (fun n => n.label = l ∧ n.type = "collection") =
              some ((entityNodeOf src e).stored) :=
            List.find?_cons_of_pos _ hpred
          rw [hfind]
          rfl
        · simp [GraphNode.stored, entityNodeOf, hez]
      · have hheadnone : (entityNodesOf (src, e)).find?
            (fun n => n.label = l ∧ n.type = "collection") = none := by
          refine List.find?_eq_none.mpr ?_
          intro x hx
          simp only [entityNodesOf, List.mem_cons, List.mem_map] at hx
          rcases hx with hx | ⟨f, _, hx⟩
          · subst hx
            simp [GraphNode.stored, entityNodeOf, hez]
          · rw [← hx]
            simp [fieldNodeOf]
        have hl2 : l ∈ rest.map (fun p => p.2.label) := by
          rcases List.mem_cons.mp hl with hl | hl
          · exact absurd hl.symm hez
          · exact hl
        obtain ⟨n, hn, hid⟩ := ih l hl2
        refine ⟨n, ?_, hid⟩
        rw [List.find?_append, hheadnone, Option.none_or]
        exact hn

/-- The node set of a build does not depend on pass 2: under
id-collision freedom it is exactly the plainly listed nodes. -/
theorem build_nodes_eq (reg : Registry) (st : GraphState) (h : goodRegistry reg) :
    (build_graph_from_schema st reg).nodes = (entityDecls reg).flatMap entityNodesOf := by
  unfold build_graph_from_schema clear_graph
  dsimp only
  rw [foldl_entityDecls]
  rw [pass1_eq (entityDecls reg)
      { graph := { nodes := [], edges := [] }, cache := [], fkPending := [] }
      (by simpa [allDerivedIds] using h) (by intro ed hed; cases hed)]
  simp

/-- On a well-formed build, `find_entity_node` resolves every declared
label to a node whose id is the label's derived id. -/
theorem find_entity_node_built (reg : Registry) (st : GraphState)
    (h : goodRegistry reg) (l : String) (hl : l ∈ entityLabels reg) :
    ∃ n, find_entity_node (build_graph_from_schema st reg) l = some n ∧
      n.id = entityNodeId l := by
  unfold find_entity_node
  rw [build_nodes_eq reg st h]
  exact find_entity_node_plain (entityDecls reg) l hl

theorem goodRegistry_append_left (reg reg2 : Registry)
    (h : goodRegistry (reg ++ reg2)) : goodRegistry reg := by
  unfold goodRegistry allDerivedIds entityDecls at h ⊢
  rw [List.flatMap_append, List.flatMap_append, List.nodup_append] at h
  exact h.1

theorem entityLabels_append_left (reg reg2 : Registry) (l : String)
    (hl : l ∈ entityLabels reg) : l ∈ entityLabels (reg ++ reg2) := by
  unfold entityLabels entityDecls at hl ⊢
  rw [List.flatMap_append, List.map_append]
  exact List.mem_append_left _ hl

theorem entityLabels_append_right (reg reg2 : Registry) (l : String)
    (hl : l ∈ entityLabels reg2) : l ∈ entityLabels (reg ++ reg2) := by
  unfold entityLabels entityDecls at hl ⊢
  rw [List.flatMap_append, List.map_append]
  exact List.mem_append_right _ hl

theorem filter_map_refEdge (fk : String × String × String)
    (l : List (String × String × String)) (hmem : fk ∈ l)
    (hnodup : (l.map (fun x => (entityNodeId x.1, entityNodeId x.2.2))).Nodup) :
    (l.map refEdgeOf).filter
      (fun d => d.source = entityNodeId fk.1 ∧ d.target = entityNodeId fk.2.2 ∧
        d.relation = "REFERENCES") = [refEdgeOf fk] := by
  induction l with
  | nil => cases hmem
  | cons x xs ih =>
      simp only [List.map_cons, List.nodup_cons] at hnodup
      rcases List.mem_cons.mp hmem with hfk | hfk
      · subst hfk
        simp only [List.map_cons, List.filter_cons]
        have hp : (decide ((refEdgeOf fk).source = entityNodeId fk.1 ∧
            (refEdgeOf fk).target = entityNodeId fk.2.2 ∧
            (refEdgeOf fk).relation = "REFERENCES")) = true := by
          simp [refEdgeOf]
        rw [if_pos hp]
        · congr 1
          refine List.filter_eq_nil_iff.mpr ?_
          intro d hd
          simp only [List.mem_map] at hd
          obtain ⟨y, hy, hde⟩ := hd
          intro hp
          simp only [decide_eq_true_eq] at hp
          refine hnodup.1 ?_
          rw [List.mem_map]
          refine ⟨y, hy, ?_⟩
          have h1 : entityNodeId y.1 = entityNodeId fk.1 := by rw [← hde] at hp; exact hp.1
          have h2 : entityNodeId y.2.2 = entityNodeId fk.2.2 := by
            rw [← hde] at hp; exact hp.2.1
          rw [h1, h2]
      · simp only [List.map_cons, List.filter_cons]
        rw [if_neg]
        · exact ih hfk hnodup.2
        · intro hp
          simp only [decide_eq_true_eq, refEdgeOf] at hp
          refine hnodup.1 ?_
          rw [List.mem_map]
          exact ⟨fk, hfk, by rw [hp.1, hp.2.1]⟩

theorem string_eq_of_data (a b : String) (h : a.data = b.data) : a = b := by
  cases a; cases b; exact congrArg String.mk h

theorem append_underscore_inj :
    ∀ (a b : List Char) (c d : List Char),
      '_' ∉ a → '_' ∉ c → a ++ '_' :: b = c ++ '_' :: d → a = c ∧ b = d := by
  intro a
  induction a with
  | nil =>
      intro b c d _ hc heq
      cases c with
      | nil => simpa using heq
      | cons y ys =>
          simp only [List.nil_append, List.cons_append, List.cons.injEq] at heq
          exact absurd (heq.1 ▸ List.mem_cons_self y ys) hc
  | cons x xs ih =>
      intro b c d ha hc heq
      cases c with
      | nil =>
          simp only [List.cons_append, List.nil_append, List.cons.injEq] at heq
          exact absurd (heq.1 ▸ List.mem_cons_self x xs) ha
      | cons y ys =>
          simp only [List.cons_append, List.cons.injEq] at heq
          obtain ⟨hxy, heq2⟩ := heq
          have hrec := ih b ys d (fun h => ha (List.mem_cons_of_mem _ h))
            (fun h => hc (List.mem_cons_of_mem _ h)) heq2
          exact ⟨by rw [hxy, hrec.1], hrec.2⟩

theorem pyNormId_fix_data (e : String) (he : pyNormId e = e) :
    e.data.map normChar = e.data := by
  have := congrArg String.data he
  simpa [pyNormId] using this

theorem fieldNodeId_data (e f : String) (he : pyNormId e = e) :
    (fieldNodeId (entityNodeId e) f).data =
      "collection_".data ++ (e.data ++ '_' :: (pyNormId f).data) := by
  have hmapc : "collection_".data.map normChar = "collection_".data := by decide
  have hER : (entityNodeId e).data = "collection_".data ++ e.data := by
    show (("collection_" ++ e).data.map normChar) = _
    rw [String.data_append, List.map_append, pyNormId_fix_data e he, hmapc]
  have hdata : (entityNodeId e ++ "_" ++ f).data =
      ("collection_".data ++ e.data) ++ ('_' :: f.data) := by
    rw [String.data_append, String.data_append, hER, List.append_assoc]
    rfl
  show ((entityNodeId e ++ "_" ++ f).data.map normChar) = _
  rw [hdata, List.map_append, List.map_append, hmapc, pyNormId_fix_data e he]
  rw [List.append_assoc]
  congr 1

theorem charListLe_total : ∀ x y : List Char,
    charListLe x y = true ∨ charListLe y x = true := by
  intro x
  induction x with
  | nil => intro y; left; rfl
  | cons a as ih =>
      intro y
      cases y with
      | nil => right; rfl
      | cons b bs =>
          simp only [charListLe]
          by_cases hab : a.toNat < b.toNat
          · left; rw [if_pos hab]
          · by_cases hba : b.toNat < a.toNat
            · right; rw [if_pos hba]
            · rcases ih bs with h | h
              · left; rw [if_neg hab, if_neg hba]; exact h
              · right; rw [if_neg hba, if_neg hab]; exact h

theorem charListLe_trans : ∀ x y z : List Char,
    charListLe x y = true → charListLe y z = true → charListLe x z = true := by
  intro x
  induction x with
  | nil => intro y z _ _; rfl
  | cons a as ih =>
      intro y z h1 h2
      cases y with
      | nil => simp [charListLe] at h1
      | cons b bs =>
          cases z with
          | nil => simp [charListLe] at h2
          | cons c cs =>
              simp only [charListLe] at h1 h2 ⊢
              by_cases hab : a.toNat < b.toNat
              · by_cases hbc : b.toNat < c.toNat
                · rw [if_pos (Nat.lt_trans hab hbc)]
                · by_cases hcb : c.toNat < b.toNat
                  · rw [if_neg hbc, if_pos hcb] at h2; cases h2
                  · have hbc2 : b.toNat = c.toNat :=
                      Nat.le_antisymm (Nat.not_lt.mp hcb) (Nat.not_lt.mp hbc)
                    rw [if_pos (hbc2 ▸ hab)]
              · by_cases hba : b.toNat < a.toNat
                · rw [if_neg hab, if_pos hba] at h1; cases h1
                · have hab2 : a.toNat = b.toNat :=
                    Nat.le_antisymm (Nat.not_lt.mp hba) (Nat.not_lt.mp hab)
                  rw [if_neg hab, if_neg hba] at h1
                  by_cases hbc : b.toNat < c.toNat
                  · rw [if_pos (hab2 ▸ hbc)]
                  · by_cases hcb : c.toNat < b.toNat
                    · rw [if_neg hbc, if_pos hcb] at h2; cases h2
                    · rw [if_neg hbc, if_neg hcb] at h2
                      have hac1 : ¬ a.toNat < c.toNat := by omega
                      have hca : ¬ c.toNat < a.toNat := by omega
                      rw [if_neg hac1, if_neg hca]
                      exact ih bs cs h1 h2

instance : IsTotal GraphNode labelLe :=
  ⟨fun a b => charListLe_total a.label.data b.label.data⟩

instance : IsTrans GraphNode labelLe :=
  ⟨fun _ _ _ h1 h2 => charListLe_trans _ _ _ h1 h2⟩

/-
Claim theorems.
-/

/-- C2: filter evaluation in `_evaluate_filter` — a plain scalar means
Python equality with the record's field; a single-key mapping applies the
operator `$gt`, `$lt`, `$gte`, `$lte`, `$ne` or `$exists` to the field's
value; a mapping whose first key is none of those six evaluates to
no-match without raising; any operator other than `$exists` on a
missing/None field is no-match; and `{"GPA": {"$gt": 3.9}}` accepts a
GPA of 3.92 and rejects 3.75. -/
theorem c2_filter_evaluation :
    (∀ (d : Doc) (k : String) (v : Value),
        _evaluate_filter d k (.scalar v) = some (pyEq (docGet d k) v)) ∧
    (∀ (d : Doc) (k : String) (v : Value) (rest : List (String × Value)),
        (_evaluate_filter d k (.map (("$gt", v) :: rest)) =
            if (docGet d k).isNull then some false else pyGt (docGet d k) v) ∧
        (_evaluate_filter d k (.map (("$lt", v) :: rest)) =
            if (docGet d k).isNull then some false else pyLt (docGet d k) v) ∧
        (_evaluate_filter d k (.map (("$gte", v) :: rest)) =
            if (docGet d k).isNull then some false else pyGe (docGet d k) v) ∧
        (_evaluate_filter d k (.map (("$lte", v) :: rest)) =
            if (docGet d k).isNull then some false else pyLe (docGet d k) v) ∧
        (_evaluate_filter d k (.map (("$ne", v) :: rest)) =
            if (docGet d k).isNull then some false
            else some (!pyEq (docGet d k) v)) ∧
        (_evaluate_filter d k (.map (("$exists", v) :: rest)) =
            some ((pyTruthy v && !(docGet d k).isNull) ||
                  (!pyTruthy v && (docGet d k).isNull)))) ∧
    (∀ (d : Doc) (k : String) (op : String) (v : Value) (rest : List (String × Value)),
        op ∉ ["$gt", "$lt", "$gte", "$lte", "$ne", "$exists"] →
        _evaluate_filter d k (.map ((op, v) :: rest)) = some false) ∧
    (∀ (d : Doc) (k : String) (op : String) (v : Value) (rest : List (String × Value)),
        (docGet d k).isNull = true → op ≠ "$exists" →
        _evaluate_filter d k (.map ((op, v) :: rest)) = some false) ∧
    (_evaluate_filter [("GPA", .num (mkRat 392 100))] "GPA"
        (.map [("$gt", .num (mkRat 39 10))]) = some true) ∧
    (_evaluate_filter [("GPA", .num (mkRat 375 100))] "GPA"
        (.map [("$gt", .num (mkRat 39 10))]) = some false) := by
  refine ⟨?_, ?_, ?_, ?_, by decide, by decide⟩
  · intro d k v; rfl
  · intro d k v rest
    refine ⟨?_, ?_, ?_, ?_, ?_, ?_⟩ <;>
      · by_cases h : (docGet d k).isNull <;> simp [_evaluate_filter, h]
  · intro d k op v rest hop
    simp only [List.mem_cons, List.not_mem_nil, or_false] at hop
    push_neg at hop
    obtain ⟨h1, h2, h3, h4, h5, h6⟩ := hop
    by_cases h : (docGet d k).isNull <;>
      simp [_evaluate_filter, h, h1, h2, h3, h4, h5, h6]
  · intro d k op v rest hnull hop
    simp [_evaluate_filter, hnull, hop]

/-- C2 witness: the hypothesis-carrying conjuncts instantiated — the
unsupported operator `$regex` is a no-match, and `$lt` against a record
missing the field is a no-match. -/
theorem c2_filter_evaluation_witness :
    _evaluate_filter [("X", .num 5)] "X" (.map [("$regex", .num 1)]) = some false ∧
    _evaluate_filter [("Y", .num 5)] "X" (.map [("$lt", .num 1)]) = some false :=
  ⟨c2_filter_evaluation.2.2.1 [("X", .num 5)] "X" "$regex" (.num 1) [] (by decide),
   c2_filter_evaluation.2.2.2.1 [("Y", .num 5)] "X" "$lt" (.num 1) [] (by decide)
     (by decide)⟩

/-- C10: `_build_projection` maps an explicit empty request (and the
no-declared-fields default) to the bare exclusion projection
`{"_id": 0}`; every non-empty field list yields exactly one inclusion
key per requested field plus an `_id` key that is 1 iff `_id` was
requested; and applying `{"_id": 0}` to a document keeps every field
except `_id`, so an explicit empty selection does not restrict the read
to zero fields. -/
theorem c10_build_projection :
    (∀ all : List String, _build_projection (some []) all = [("_id", 0)]) ∧
    (_build_projection none [] = [("_id", 0)]) ∧
    (∀ fs : List String, fs ≠ [] → ∀ all : List String,
        (∀ f ∈ fs, alistGet (_build_projection (some fs) all) f = some 1) ∧
        ("_id" ∈ fs → alistGet (_build_projection (some fs) all) "_id" = some 1) ∧
        ("_id" ∉ fs → alistGet (_build_projection (some fs) all) "_id" = some 0) ∧
        (∀ p ∈ _build_projection (some fs) all, p.1 ∈ fs ∨ p.1 = "_id") ∧
        ((_build_projection (some fs) all).map Prod.fst).Nodup) ∧
    (∀ d : Doc, applyProjection [("_id", 0)] d = d.filter (fun p => p.1 ≠ "_id")) := by
  refine ⟨fun all => rfl, rfl, ?_, ?_⟩
  · intro fs hfs all
    obtain ⟨a, l, rfl⟩ : ∃ a l, fs = a :: l := by
      cases fs with
      | nil => exact absurd rfl hfs
      | cons a l => exact ⟨a, l, rfl⟩
    have hsplit : _build_projection (some (a :: l)) all =
        if (a :: l).contains "_id" = true then
          dictInsert ((a :: l).foldl (fun acc field => dictInsert acc field 1) []) "_id" 1
        else
          dictInsert ((a :: l).foldl (fun acc field => dictInsert acc field 1) []) "_id" 0 :=
      rfl
    by_cases hid : "_id" ∈ a :: l
    · have hc : (a :: l).contains "_id" = true := List.elem_eq_true_of_mem hid
      have hproj : _build_projection (some (a :: l)) all =
          dictInsert ((a :: l).foldl (fun acc field => dictInsert acc field 1) []) "_id" 1 := by
        rw [hsplit, if_pos hc]
      refine ⟨?_, ?_, ?_, ?_, ?_⟩
      · intro f hf
        rw [hproj, alistGet_dictInsert]
        by_cases h : "_id" = f
        · rw [if_pos h]
        · rw [if_neg h, alistGet_foldl_dictInsert, if_pos hf]
      · intro _
        rw [hproj, alistGet_dictInsert, if_pos rfl]
      · intro h; exact absurd hid h
      · intro p hp
        rw [hproj] at hp
        rcases fst_mem_dictInsert _ _ _ p hp with h | h
        · right; exact h
        · rcases fst_mem_foldl_dictInsert _ _ p h with h2 | h2
          · left; exact h2
          · simp at h2
      · rw [hproj]
        exact keys_nodup_dictInsert _ _ _
          (keys_nodup_foldl_dictInsert _ [] (by simp))
    · have hc : (a :: l).contains "_id" = false := by
        rw [← Bool.not_eq_true]
        exact fun hh => hid (List.mem_of_elem_eq_true hh)
      have hproj : _build_projection (some (a :: l)) all =
          dictInsert ((a :: l).foldl (fun acc field => dictInsert acc field 1) []) "_id" 0 := by
        rw [hsplit, if_neg (by rw [hc]; exact Bool.false_ne_true)]
      refine ⟨?_, ?_, ?_, ?_, ?_⟩
      · intro f hf
        rw [hproj, alistGet_dictInsert]
        have h : ¬ "_id" = f := fun h => hid (h ▸ hf)
        rw [if_neg h, alistGet_foldl_dictInsert, if_pos hf]
      · intro h; exact absurd h hid
      · intro _
        rw [hproj, alistGet_dictInsert, if_pos rfl]
      · intro p hp
        rw [hproj] at hp
        rcases fst_mem_dictInsert _ _ _ p hp with h | h
        · right; exact h
        · rcases fst_mem_foldl_dictInsert _ _ p h with h2 | h2
          · left; exact h2
          · simp at h2
      · rw [hproj]
        exact keys_nodup_dictInsert _ _ _
          (keys_nodup_foldl_dictInsert _ [] (by simp))
  · intro d
    have h0 : applyProjection [("_id", 0)] d =
        d.filter (fun p => decide (¬ alistGet [("_id", (0 : Nat))] p.1 = some 0)) := rfl
    rw [h0]
    refine List.filter_congr ?_
    intro p _
    by_cases h : p.1 = "_id"
    · simp [h, alistGet_cons]
    · have h2 : ¬ "_id" = p.1 := fun hh => h hh.symm
      simp [alistGet_cons, h2, h, alistGet]

/-- C10 witness: the non-empty-list conjunct instantiated at
`["Major", "GPA"]`, and the `{"_id": 0}` projection applied to a concrete
two-field record. -/
theorem c10_build_projection_witness :
    alistGet (_build_projection (some ["Major", "GPA"]) []) "Major" = some 1 ∧
    alistGet (_build_projection (some ["Major", "GPA"]) []) "_id" = some 0 ∧
    applyProjection [("_id", 0)] [("_id", .num 7), ("Major", .str "CS")] =
      [("Major", .str "CS")] :=
  ⟨(c10_build_projection.2.2.1 ["Major", "GPA"] (by decide) []).1 "Major" (by decide),
   (c10_build_projection.2.2.1 ["Major", "GPA"] (by decide) []).2.2.1 (by decide),
   by
     rw [c10_build_projection.2.2.2 [("_id", .num 7), ("Major", .str "CS")]]
     decide⟩

/-- C7: a query naming an entity label with no entity node in the
metadata graph — the entity of a single-entity query or the start entity
of a traversal query — is answered with a null result (the source prints
a message and returns `None`) and no exception is raised. -/
theorem c7_unknown_entity :
    (∀ (gs : GraphState) (ds : DataStore) (entity_label : String)
        (requested_fields : Option (List String)) (filters : MFilter),
        find_entity_node gs entity_label = none →
        _retrieve_single_entity gs ds entity_label requested_fields filters = none) ∧
    (∀ (gs : GraphState) (ds : DataStore) (q : RelatedQuery),
        find_entity_node gs q.start_entity = none →
        _retrieve_related_data gs ds q = none) := by
  constructor
  · intro gs ds e rf f h
    simp only [_retrieve_single_entity, h]
  · intro gs ds q h
    simp only [_retrieve_related_data, h]

/-- C7 witness: querying the unknown label `Ghost` against the Scenario A
graph yields a null result on both paths. -/
theorem c7_unknown_entity_witness :
    _retrieve_single_entity gA dsA "Ghost" none [] = none ∧
    _retrieve_related_data gA dsA
      { start_entity := "Ghost", start_filters := [], relations := [],
        final_fields := [] } = none :=
  ⟨c7_unknown_entity.1 gA dsA "Ghost" none [] (by decide),
   c7_unknown_entity.2 gA dsA
     { start_entity := "Ghost", start_filters := [], relations := [],
       final_fields := [] } (by decide)⟩

/-- C6: a traversal query whose initial fetch of the start entity under
the start filters matches no records returns the empty sequence
immediately — for every content of the remaining collections, so no
subsequent hop is attempted — and raises no exception. -/
theorem c6_empty_start_fetch :
    ∀ (gs : GraphState) (ds : DataStore) (q : RelatedQuery) (start_node : GraphNode),
      find_entity_node gs q.start_entity = some start_node →
      strFalsy start_node.collection_name = false →
      (q.relations = [] ∨
        ∃ r1 rest li, q.relations = r1 :: rest ∧
          _get_relationship_link_fields gs (some start_node.id) r1 = some li) →
      (ds (start_node.collection_name.getD "")).filter (docMatches q.start_filters) = [] →
      _retrieve_related_data gs ds q = some [] := by
  intro gs ds q start_node hfind hcoll hlink hfetch
  have hmf : ∀ proj,
      mongoFind (ds (start_node.collection_name.getD "")) q.start_filters proj = [] := by
    intro proj
    unfold mongoFind
    rw [hfetch]
    rfl
  rcases hlink with hrel | ⟨r1, rest, li, hrel, hli⟩
  · simp only [_retrieve_related_data, hfind, hcoll, Bool.false_eq_true, if_false, hrel,
      List.head?_nil, hmf, List.isEmpty_nil, if_true]
  · simp only [_retrieve_related_data, hfind, hcoll, Bool.false_eq_true, if_false, hrel,
      List.head?_cons, hli, hmf, List.isEmpty_nil, if_true]

/-- C6 witness: Scenario B — the Scenario A graph and data queried with
the unmatched StudentID 9999 returns the empty sequence. -/
theorem c6_empty_start_fetch_witness :
    _retrieve_related_data gA dsA qB = some [] :=
  c6_empty_start_fetch gA dsA qB studentsNodeA (by decide) (by decide)
    (Or.inr ⟨{ target_entity := "Enrollments", relation := some "REFERENCES",
               direction := some "in" },
             [{ target_entity := "Courses", relation := some "REFERENCES",
                direction := some "out" }],
             ⟨"StudentID", "StudentID", false⟩, rfl, by decide⟩)
    (by decide)

/-- C3: the graph build is deterministic and idempotent — a rebuild first
deletes every node and edge, so the result is independent of the prior
graph state, and building twice over the same registry yields identical
node and edge sets; moreover, for a registry extension without id
collisions, every pre-existing entity keeps its derived node id across
the rebuild and each newly declared entity appears under its own freshly
derived id. -/
theorem c3_build_deterministic_idempotent :
    (∀ (st : GraphState) (reg : Registry),
        build_graph_from_schema (build_graph_from_schema st reg) reg =
          build_graph_from_schema st reg) ∧
    (∀ (st st2 : GraphState) (reg : Registry),
        build_graph_from_schema st reg = build_graph_from_schema st2 reg) ∧
    (∀ (st : GraphState) (reg : Registry) (newSrc : SourceSchema),
        goodRegistry (reg ++ [newSrc]) →
        (∀ l ∈ entityLabels reg,
            ∃ n n2,
              find_entity_node (build_graph_from_schema st reg) l = some n ∧
              find_entity_node (build_graph_from_schema st (reg ++ [newSrc])) l =
                some n2 ∧
              n.id = entityNodeId l ∧ n2.id = entityNodeId l) ∧
        (∀ l ∈ entityLabels [newSrc],
            ∃ n2,
              find_entity_node (build_graph_from_schema st (reg ++ [newSrc])) l =
                some n2 ∧
              n2.id = entityNodeId l)) := by
  refine ⟨fun st reg => rfl, fun st st2 reg => rfl, ?_⟩
  intro st reg newSrc hgood
  have hgoodL : goodRegistry reg := goodRegistry_append_left reg [newSrc] hgood
  constructor
  · intro l hl
    obtain ⟨n, hn, hid⟩ := find_entity_node_built reg st hgoodL l hl
    obtain ⟨n2, hn2, hid2⟩ := find_entity_node_built (reg ++ [newSrc]) st hgood l
      (entityLabels_append_left reg [newSrc] l hl)
    exact ⟨n, n2, hn, hn2, hid, hid2⟩
  · intro l hl
    exact find_entity_node_built (reg ++ [newSrc]) st hgood l
      (entityLabels_append_right reg [newSrc] l hl)

/-- C3 witness: rebuilding after appending the `Clubs` source to the
Scenario A registry keeps the `Students` node at `collection_students`
and gives `Clubs` its freshly derived id. -/
theorem c3_build_deterministic_idempotent_witness :
    (∃ n n2,
        find_entity_node (build_graph_from_schema { nodes := [], edges := [] } regA)
          "Students" = some n ∧
        find_entity_node (build_graph_from_schema { nodes := [], edges := [] }
          (regA ++ [srcClubs])) "Students" = some n2 ∧
        n.id = entityNodeId "Students" ∧ n2.id = entityNodeId "Students") ∧
    (∃ n2,
        find_entity_node (build_graph_from_schema { nodes := [], edges := [] }
          (regA ++ [srcClubs])) "Clubs" = some n2 ∧
        n2.id = entityNodeId "Clubs") := by
  have h := c3_build_deterministic_idempotent.2.2 { nodes := [], edges := [] }
    regA srcClubs (by decide)
  exact ⟨h.1 "Students" (by decide), h.2 "Clubs" (by decide)⟩

/-- C4 counterexample: in `regC4` the field `a` of entity `E` is a
declared foreign key whose `references` target `T` is declared, yet after
the build the unique REFERENCES edge from `E` to `T` carries
`on_field = "b"` (the upsert by (source, target, relation) lets the
second foreign key overwrite the first), so no edge records field `a`. -/
theorem c4_counterexample :
    ("E", "a", "T") ∈ resolvableFKs regC4 ∧
    ((build_graph_from_schema { nodes := [], edges := [] } regC4).edges.filter
        (fun d => d.source = entityNodeId "E" ∧ d.target = entityNodeId "T" ∧
          d.relation = "REFERENCES")).map
      (fun d => alistGet d.properties "on_field") = [some (.str "b")] := by
  exact ⟨by decide, by decide⟩

/-- C4 (amended): after a graph build over a registry without id
collisions in which no two foreign-key fields of one entity resolve to
the same target, every resolvable foreign-key declaration owns exactly
one REFERENCES edge from its entity node to its target node, and that
edge's `properties.on_field` is the declaring field's label; conversely
every REFERENCES edge of the build arises from a resolvable foreign-key
declaration, so an unresolvable `references` target creates no edge (and
the build, a total function, completes without raising).  When two
foreign keys of one entity share a target, the single upserted edge keeps
only the last field's label. -/
theorem c4_reference_edges :
    ∀ (reg : Registry) (st : GraphState),
      goodRegistry reg → (fkEdgeKeys reg).Nodup →
      (∀ fk ∈ resolvableFKs reg,
          ((build_graph_from_schema st reg).edges.filter
            (fun d => d.source = entityNodeId fk.1 ∧ d.target = entityNodeId fk.2.2 ∧
              d.relation = "REFERENCES")) = [refEdgeOf fk] ∧
          alistGet (refEdgeOf fk).properties "on_field" = some (.str fk.2.1)) ∧
      (∀ d ∈ (build_graph_from_schema st reg).edges, d.relation = "REFERENCES" →
          ∃ fk ∈ resolvableFKs reg, d = refEdgeOf fk) := by
  intro reg st h hfk
  constructor
  · intro fk hfkmem
    refine ⟨?_, rfl⟩
    rw [build_eq reg st h hfk]
    show (List.filter _ (_ ++ _)) = _
    rw [List.filter_append]
    have h1 : ((entityDecls reg).flatMap (fun p => hasFieldEdgesOf p.2)).filter
        (fun d => d.source = entityNodeId fk.1 ∧ d.target = entityNodeId fk.2.2 ∧
          d.relation = "REFERENCES") = [] := by
      refine List.filter_eq_nil_iff.mpr ?_
      intro d hd hp
      simp only [decide_eq_true_eq] at hp
      have := hasFieldEdges_relation (entityDecls reg) d hd
      rw [this] at hp
      exact absurd hp.2.2 (by decide)
    rw [h1, List.nil_append]
    exact filter_map_refEdge fk (resolvableFKs reg) hfkmem hfk
  · intro d hd hrel
    rw [build_eq reg st h hfk] at hd
    rcases List.mem_append.mp hd with hd | hd
    · have := hasFieldEdges_relation (entityDecls reg) d hd
      rw [this] at hrel
      exact absurd hrel (by decide)
    · simp only [List.mem_map] at hd
      obtain ⟨fk, hfk2, he⟩ := hd
      exact ⟨fk, hfk2, he.symm⟩

/-- C4 witness: in the Scenario A build, the foreign key
`Enrollments.StudentID` owns exactly one REFERENCES edge from
Enrollments to Students carrying `on_field = "StudentID"`. -/
theorem c4_reference_edges_witness :
    ((build_graph_from_schema { nodes := [], edges := [] } regA).edges.filter
        (fun d => d.source = entityNodeId "Enrollments" ∧
          d.target = entityNodeId "Students" ∧ d.relation = "REFERENCES")) =
      [refEdgeOf ("Enrollments", "StudentID", "Students")] ∧
    alistGet (refEdgeOf ("Enrollments", "StudentID", "Students")).properties
      "on_field" = some (.str "StudentID") :=
  (c4_reference_edges regA { nodes := [], edges := [] } (by decide) (by decide)).1
    ("Enrollments", "StudentID", "Students") (by decide)

/-- C8 counterexample: the id derivation does not guarantee global
uniqueness — the distinct pairs (entity `A`, field `B_C`) and (entity
`A B`, field `C`) both derive the field node id `collection_a_b_c`; in
the graph built over `regC8` the two declared fields collapse into a
single field node. -/
theorem c8_counterexample :
    fieldNodeId (entityNodeId "A") "B_C" = fieldNodeId (entityNodeId "A B") "C" ∧
    ("A", "B_C") ≠ (("A B", "C") : String × String) ∧
    ¬ goodRegistry regC8 ∧
    ((build_graph_from_schema { nodes := [], edges := [] } regC8).nodes.filter
      (fun n => n.type = "field")).length = 1 := by
  exact ⟨by decide, by decide, by decide, by decide⟩

/-- C8 (amended): each field node id is derived from the owning entity
node's id combined with the field's label, but the derivation guarantees
uniqueness only up to case/space normalisation of the field label and
only for entity labels free of underscores and spaces: under those
conditions, two (entity, field) pairs derive the same field node id only
if the entity labels are equal and the field labels agree after
normalisation.  (Without the underscore restriction distinct pairs can
collide, as the counterexample shows.) -/
theorem c8_field_id_uniqueness :
    ∀ (e1 f1 e2 f2 : String),
      pyNormId e1 = e1 → pyNormId e2 = e2 →
      ('_' ∉ e1.data) → ('_' ∉ e2.data) →
      fieldNodeId (entityNodeId e1) f1 = fieldNodeId (entityNodeId e2) f2 →
      e1 = e2 ∧ pyNormId f1 = pyNormId f2 := by
  intro e1 f1 e2 f2 h1 h2 hu1 hu2 heq
  have hd := congrArg String.data heq
  rw [fieldNodeId_data e1 f1 h1, fieldNodeId_data e2 f2 h2] at hd
  have hd2 := List.append_cancel_left hd
  obtain ⟨hae, haf⟩ := append_underscore_inj e1.data (pyNormId f1).data e2.data
    (pyNormId f2).data hu1 hu2 hd2
  exact ⟨string_eq_of_data e1 e2 hae,
    string_eq_of_data (pyNormId f1) (pyNormId f2) haf⟩

/-- C8 witness: for the underscore-free entity label `students`, the ids
derived for fields `GPA` and `gpa` coincide exactly because the labels
agree after normalisation. -/
theorem c8_field_id_uniqueness_witness :
    ("students" : String) = "students" ∧ pyNormId "GPA" = pyNormId "gpa" :=
  c8_field_id_uniqueness "students" "GPA" "students" "gpa" (by decide) (by decide)
    (by decide) (by decide) (by decide)

/-- `get_entity_fields` unconditionally: the HAS_FIELD target nodes,
insertion-sorted by label, mapped to their labels (the `isEmpty` early
return coincides with this on the empty case). -/
theorem get_entity_fields_eq (gs : GraphState) (eid : String) :
    get_entity_fields gs eid =
      ((gs.nodes.filter (fun n =>
        ((gs.edges.filter (fun e => e.source = eid ∧ e.relation = "HAS_FIELD")).map
          (fun e => e.target)).contains n.id)).insertionSort labelLe).map
        (fun n => n.label) := by
  have h0 : get_entity_fields gs eid =
      (if ((gs.edges.filter (fun e => e.source = eid ∧ e.relation = "HAS_FIELD")).map
            (fun e => e.target)).isEmpty then []
       else
        ((gs.nodes.filter (fun n =>
          ((gs.edges.filter (fun e => e.source = eid ∧ e.relation = "HAS_FIELD")).map
            (fun e => e.target)).contains n.id)).insertionSort labelLe).map
          (fun n => n.label)) := rfl
  rw [h0]
  by_cases h : ((gs.edges.filter (fun e => e.source = eid ∧ e.relation = "HAS_FIELD")).map
      (fun e => e.target)).isEmpty
  · rw [if_pos h, List.isEmpty_iff.mp h]
    have hf : gs.nodes.filter (fun n => (([] : List String)).contains n.id) = [] := by
      simp
    rw [hf]
    rfl
  · rw [if_neg h]

/-- C9: `get_entity_fields` returns the entity's declared field labels
sorted ascending by codepoint order (a `Sorted` permutation of the
HAS_FIELD target labels, not declaration order — Scenario A's Students
declares `[StudentID, Major]` but expands to `[Major, StudentID]`), and
this ordering is what the executor uses for the default projection of a
single-entity query and for the fields scope of a traversal entity whose
request is null or absent.  The claim's final clause fails: the
expected-output-headers computation never reaches `get_entity_fields`,
because data_manager.py line 702 leaves `node_id` unassigned (the
assignment sits dead after `continue` in the `if` suite), so every branch
that would expand all declared fields raises `UnboundLocalError`
(modelled `none`, swallowed by the caller's handler into a null result). -/
theorem c9_entity_fields_alphabetical :
    (∀ (gs : GraphState) (eid : String),
        List.Sorted (fun a b : String => strLe a b = true) (get_entity_fields gs eid) ∧
        (get_entity_fields gs eid).Perm
          ((gs.nodes.filter (fun n =>
            ((gs.edges.filter (fun e => e.source = eid ∧ e.relation = "HAS_FIELD")).map
              (fun e => e.target)).contains n.id)).map (fun n => n.label))) ∧
    (∀ (gs : GraphState) (ff : FinalFields) (entity_label nid : String),
        alistGet ff entity_label = none ∨ alistGet ff entity_label = some none →
        _get_fields_scope gs ff entity_label nid = get_entity_fields gs nid) ∧
    (∀ (gs : GraphState) (ds : DataStore) (entity_label : String) (filters : MFilter)
        (node : GraphNode),
        find_entity_node gs entity_label = some node →
        strFalsy node.collection_name = false →
        _retrieve_single_entity gs ds entity_label none filters =
          some (mongoFind (ds (node.collection_name.getD "")) filters
            (_build_projection none (get_entity_fields gs node.id)))) ∧
    ((entityDecls regA).head?.map (fun p => p.2.fieldDecls.map (fun f => f.label)) =
        some ["StudentID", "Major"] ∧
      get_entity_fields gA "collection_students" = ["Major", "StudentID"]) ∧
    (_get_expected_headers gA [] [] "Students" = none ∧
      _get_expected_headers gA [("Students", (none : Option (List String)))] []
        "Students" = none) := by
  refine ⟨?_, ?_, ?_, ⟨by decide, by decide⟩, ⟨by decide, by decide⟩⟩
  · intro gs eid
    rw [get_entity_fields_eq]
    exact ⟨(List.pairwise_map).mpr (List.sorted_insertionSort labelLe _),
      (List.perm_insertionSort labelLe _).map _⟩
  · intro gs ff l nid h
    rcases h with h | h <;> simp [_get_fields_scope, h]
  · intro gs ds e filters node hfind hcoll
    simp [_retrieve_single_entity, hfind, hcoll]

/-- C9 witness: for Scenario A, a request that omits Students falls back
to the alphabetical expansion, and the default projection of a
single-entity Students query is built over that same expansion. -/
theorem c9_entity_fields_alphabetical_witness :
    _get_fields_scope gA [("Courses", some ["CourseName"])] "Students"
      "collection_students" = get_entity_fields gA "collection_students" ∧
    _retrieve_single_entity gA dsA "Students" none [] =
      some (mongoFind (dsA "Students") []
        (_build_projection none (get_entity_fields gA "collection_students"))) :=
  ⟨c9_entity_fields_alphabetical.2.1 gA [("Courses", some ["CourseName"])]
      "Students" "collection_students" (Or.inl (by decide)),
   c9_entity_fields_alphabetical.2.2.1 gA dsA "Students" [] studentsNodeA
     (by decide) (by decide)⟩

/-- An if-then-else both of whose branches equal the same value. -/
theorem ite_eq_both {c : Prop} [Decidable c] {a b x : α} (h1 : a = x) (h2 : b = x) :
    (if c then a else b) = x := by
  by_cases hc : c
  · rw [if_pos hc]; exact h1
  · rw [if_neg hc]; exact h2

theorem traverseRelations_cons (gs : GraphState) (ds : DataStore) (ff : FinalFields)
    (st : TravState) (r : RelStep) (rest : List RelStep) :
    traverseRelations gs ds ff st (r :: rest) =
      traverseRelations gs ds ff (traverseStep gs ds ff st r rest.head?) rest := rfl

/-- The step's outgoing `current_entity_node_id` is `stepCurId` of the
incoming one, whatever dataset the step records. -/
theorem traverseStep_curId (gs : GraphState) (ds : DataStore) (ff : FinalFields)
    (st : TravState) (r : RelStep) (nx : Option RelStep) :
    (traverseStep gs ds ff st r nx).current_entity_node_id =
      stepCurId gs st.current_entity_node_id r := by
  cases hc : st.current_entity_node_id with
  | none => simp [traverseStep, stepCurId, hc]
  | some cid =>
    cases hf : find_entity_node gs r.target_entity with
    | none => simp [traverseStep, stepCurId, hc, hf]
    | some tn =>
      cases hcol : strFalsy tn.collection_name with
      | true => simp [traverseStep, stepCurId, hc, hf, hcol]
      | false =>
        cases hl : _get_relationship_link_fields gs (some cid) r with
        | none => simp [traverseStep, stepCurId, hc, hf, hcol, hl]
        | some li =>
          cases hv : (collectLinkValues li.start_entity_link_field
              li.start_entity_link_is_array
              ((alistGet st.processed st.current_entity_label).getD [])).isEmpty with
          | true => simp [traverseStep, stepCurId, hc, hf, hcol, hl, hv]
          | false => simp [traverseStep, stepCurId, hc, hf, hcol, hl, hv]

/-- Every traversal step records exactly one dataset, under its own
target label. -/
theorem traverseStep_processed_shape (gs : GraphState) (ds : DataStore)
    (ff : FinalFields) (st : TravState) (r : RelStep) (nx : Option RelStep) :
    ∃ d, (traverseStep gs ds ff st r nx).processed =
      dictInsert st.processed r.target_entity d := by
  cases hc : st.current_entity_node_id with
  | none => exact ⟨[], by simp [traverseStep, hc]⟩
  | some cid =>
    cases hf : find_entity_node gs r.target_entity with
    | none => exact ⟨[], by simp [traverseStep, hc, hf]⟩
    | some tn =>
      cases hcol : strFalsy tn.collection_name with
      | true => exact ⟨[], by simp [traverseStep, hc, hf, hcol]⟩
      | false =>
        cases hl : _get_relationship_link_fields gs (some cid) r with
        | none => exact ⟨[], by simp [traverseStep, hc, hf, hcol, hl]⟩
        | some li =>
          cases hv : (collectLinkValues li.start_entity_link_field
              li.start_entity_link_is_array
              ((alistGet st.processed st.current_entity_label).getD [])).isEmpty with
          | true => exact ⟨[], by simp [traverseStep, hc, hf, hcol, hl, hv]⟩
          | false =>
            refine ⟨(alistGet (traverseStep gs ds ff st r nx).processed
              r.target_entity).getD [], ?_⟩
            simp [traverseStep, hc, hf, hcol, hl, hv, alistGet_dictInsert]

/-- A step whose target entity has no node records the empty dataset. -/
theorem traverseStep_processed_missing (gs : GraphState) (ds : DataStore)
    (ff : FinalFields) (st : TravState) (r : RelStep) (nx : Option RelStep)
    (hfind : find_entity_node gs r.target_entity = none) :
    (traverseStep gs ds ff st r nx).processed =
      dictInsert st.processed r.target_entity [] := by
  cases hc : st.current_entity_node_id with
  | none => simp [traverseStep, hc]
  | some cid => simp [traverseStep, hc, hfind]

/-- A step whose link fields do not resolve records the empty dataset
(also when the upstream node id is already gone). -/
theorem traverseStep_processed_unres (gs : GraphState) (ds : DataStore)
    (ff : FinalFields) (st : TravState) (r : RelStep) (nx : Option RelStep)
    (tn : GraphNode)
    (hfind : find_entity_node gs r.target_entity = some tn)
    (hcol : strFalsy tn.collection_name = false)
    (hl : _get_relationship_link_fields gs st.current_entity_node_id r = none) :
    (traverseStep gs ds ff st r nx).processed =
      dictInsert st.processed r.target_entity [] := by
  cases hc : st.current_entity_node_id with
  | none => simp [traverseStep, hc]
  | some cid =>
      rw [hc] at hl
      simp [traverseStep, hc, hfind, hcol, hl]

/-- A label no remaining hop targets keeps its recorded dataset through
the rest of the traversal. -/
theorem traverseRelations_processed_stable (gs : GraphState) (ds : DataStore)
    (ff : FinalFields) (label : String) :
    ∀ (rels : List RelStep) (st : TravState),
      label ∉ rels.map (fun r => r.target_entity) →
      alistGet (traverseRelations gs ds ff st rels).processed label =
        alistGet st.processed label := by
  intro rels
  induction rels with
  | nil => intro st _; rfl
  | cons r rest ih =>
      intro st hnot
      simp only [List.map_cons, List.mem_cons, not_or] at hnot
      obtain ⟨h1, h2⟩ := hnot
      rw [traverseRelations_cons, ih _ h2]
      obtain ⟨d, hd⟩ := traverseStep_processed_shape gs ds ff st r rest.head?
      rw [hd, alistGet_dictInsert, if_neg (fun hh => h1 hh.symm)]

/-- A label with no entity node only ever carries the empty dataset
through the traversal. -/
theorem traverseRelations_missing (gs : GraphState) (ds : DataStore)
    (ff : FinalFields) :
    ∀ (rels : List RelStep) (st : TravState),
      (∀ label, find_entity_node gs label = none →
          (alistGet st.processed label).getD [] = []) →
      ∀ label, find_entity_node gs label = none →
        (alistGet (traverseRelations gs ds ff st rels).processed label).getD [] = [] := by
  intro rels
  induction rels with
  | nil => intro st h; exact h
  | cons r rest ih =>
      intro st h label hnone
      rw [traverseRelations_cons]
      refine ih (traverseStep gs ds ff st r rest.head?) ?_ label hnone
      intro label2 hnone2
      by_cases heq : r.target_entity = label2
      · have hn : find_entity_node gs r.target_entity = none := by
          rw [heq]; exact hnone2
        rw [traverseStep_processed_missing gs ds ff st r rest.head? hn,
          alistGet_dictInsert, if_pos heq]
        rfl
      · obtain ⟨d, hd⟩ := traverseStep_processed_shape gs ds ff st r rest.head?
        rw [hd, alistGet_dictInsert, if_neg heq]
        exact h label2 hnone2

/-- After the traversal, the hop that could not resolve its link fields
has recorded the empty dataset, provided no later hop re-targets the
same label. -/
theorem traverseRelations_unres (gs : GraphState) (ds : DataStore) (ff : FinalFields)
    (rk : RelStep) (post : List RelStep) (tnk : GraphNode)
    (hfk : find_entity_node gs rk.target_entity = some tnk)
    (hcolk : strFalsy tnk.collection_name = false)
    (hpost : rk.target_entity ∉ post.map (fun r => r.target_entity)) :
    ∀ (pre : List RelStep) (rels : List RelStep) (st : TravState),
      rels = pre ++ rk :: post →
      _get_relationship_link_fields gs
        (travCurrentId gs st.current_entity_node_id pre) rk = none →
      alistGet (traverseRelations gs ds ff st rels).processed rk.target_entity =
        some [] := by
  intro pre
  induction pre with
  | nil =>
      intro rels st hsplit hl
      subst hsplit
      rw [List.nil_append, traverseRelations_cons,
        traverseRelations_processed_stable gs ds ff rk.target_entity post _ hpost,
        traverseStep_processed_unres gs ds ff st rk post.head? tnk hfk hcolk hl,
        alistGet_dictInsert, if_pos rfl]
  | cons p pre' ih =>
      intro rels st hsplit hl
      subst hsplit
      rw [List.cons_append, traverseRelations_cons]
      refine ih (pre' ++ rk :: post) _ rfl ?_
      rw [traverseStep_curId]
      exact hl

/-- The join loop returns the empty sequence whenever some hop's recorded
dataset is empty, provided any hop whose entity node is missing also has
an empty dataset (which the traversal guarantees). -/
theorem joinLoop_collapse (gs : GraphState) (ff : FinalFields) :
    ∀ (rels : List RelStep) (processed : List (String × List Doc))
      (last_label last_id : String) (recs : List Doc),
      (∃ rel ∈ rels, (alistGet processed rel.target_entity).getD [] = []) →
      (∀ rel ∈ rels, find_entity_node gs rel.target_entity = none →
          (alistGet processed rel.target_entity).getD [] = []) →
      joinLoop gs ff processed rels last_label last_id recs = [] := by
  intro rels
  induction rels with
  | nil =>
      intro processed _ _ _ hex _
      rcases hex with ⟨rel, hmem, _⟩
      cases hmem
  | cons r rest ih =>
      intro processed last_label last_id recs hex hmiss
      by_cases hemp : ((alistGet processed r.target_entity).getD []).isEmpty = true
      · simp [joinLoop, hemp]
      · rw [Bool.not_eq_true] at hemp
        rcases hex with ⟨rel, hmem, hrel⟩
        rcases List.mem_cons.mp hmem with heq | hmem'
        · subst heq
          rw [hrel] at hemp
          simp at hemp
        · cases hfind : find_entity_node gs r.target_entity with
          | none =>
              have h0 := hmiss r (List.mem_cons_self r rest) hfind
              rw [h0] at hemp
              simp at hemp
          | some tn =>
            cases hl : _get_relationship_link_fields gs (some last_id) r with
            | none => simp [joinLoop, hemp, hfind, hl]
            | some li =>
                simp only [joinLoop, hemp, Bool.false_eq_true, if_false, hfind, hl]
                split
                · rfl
                · exact ih processed _ _ _ ⟨rel, hmem', hrel⟩
                    (fun rel2 hm2 => hmiss rel2 (List.mem_cons_of_mem _ hm2))

/-- C5 counterexample: the claim promises an empty final result with
traversal continuing for EVERY unresolvable hop, but when the FIRST
hop's link fields cannot be resolved the source returns `None` before
any traversal starts (data_manager.py line 494).  Scenario A has no
REFERENCES edge between Students and Courses, so `qC5`'s single hop is
unresolvable, yet the query yields a null result instead of an empty
sequence. -/
theorem c5_counterexample :
    find_entity_node gA qC5.start_entity = some studentsNodeA ∧
    strFalsy studentsNodeA.collection_name = false ∧
    _get_relationship_link_fields gA (some studentsNodeA.id)
      { target_entity := "Courses", direction := some "out" } = none ∧
    _retrieve_related_data gA dsA qC5 = none := by
  exact ⟨by decide, by decide, by decide, by decide⟩

/-- C5 (amended): for a hop OTHER than the first whose link fields
cannot be resolved — while its target entity's node and collection do
resolve — the executor records an empty dataset for that hop, finishes
the traversal, and the join phase collapses to the empty sequence, so
the query returns the empty result without raising, provided the first
hop's link fields resolve (else the source returns `None` beforehand),
no later hop re-targets the same entity label (else its dataset is
overwritten), and the expected-headers computation succeeds (else its
`UnboundLocalError` turns the result into `None`). -/
theorem c5_unresolvable_hop :
    ∀ (gs : GraphState) (ds : DataStore) (q : RelatedQuery) (start_node : GraphNode)
      (p1 : RelStep) (pre' : List RelStep) (rk : RelStep) (post : List RelStep)
      (li1 : LinkInfo) (tnk : GraphNode) (hdrs : List String),
      find_entity_node gs q.start_entity = some start_node →
      strFalsy start_node.collection_name = false →
      q.relations = p1 :: pre' ++ rk :: post →
      _get_relationship_link_fields gs (some start_node.id) p1 = some li1 →
      find_entity_node gs rk.target_entity = some tnk →
      strFalsy tnk.collection_name = false →
      _get_relationship_link_fields gs
        (travCurrentId gs (some start_node.id) (p1 :: pre')) rk = none →
      rk.target_entity ∉ post.map (fun r => r.target_entity) →
      _get_expected_headers gs q.final_fields q.relations q.start_entity = some hdrs →
      _retrieve_related_data gs ds q = some [] := by
  intro gs ds q start_node p1 pre' rk post li1 tnk hdrs hfind hcol hrel hli1 hfk hcolk
    hlk hpost hhdr
  rw [hrel, List.cons_append] at hhdr
  simp only [_retrieve_related_data, hfind, hcol, Bool.false_eq_true, if_false, hrel,
    List.cons_append, List.head?_cons, hli1, hhdr]
  refine ite_eq_both rfl (ite_eq_both rfl ?_)
  rw [joinLoop_collapse gs q.final_fields]
  · rfl
  · refine ⟨rk, List.mem_cons_of_mem _ (List.mem_append_right _ (List.mem_cons_self _ _)),
      ?_⟩
    rw [traverseRelations_unres gs ds q.final_fields rk post tnk hfk hcolk hpost
      (p1 :: pre')]
    · rfl
    · rfl
    · exact hlk
  · intro rel hm hnone
    refine traverseRelations_missing gs ds q.final_fields _ _ ?_ rel.target_entity hnone
    intro label hnone2
    dsimp only
    by_cases hql : q.start_entity = label
    · rw [hql] at hfind
      rw [hnone2] at hfind
      exact Option.noConfusion hfind
    · rw [alistGet_cons, if_neg hql]
      rfl

/-- C5 witness: Scenario A with a second hop whose `direction` is
missing — the unresolvable hop records an empty Courses dataset and the
query returns the empty sequence. -/
theorem c5_unresolvable_hop_witness :
    _retrieve_related_data gA dsA qC5b = some [] :=
  c5_unresolvable_hop gA dsA qC5b studentsNodeA
    { target_entity := "Enrollments", relation := some "REFERENCES",
      direction := some "in" }
    [] { target_entity := "Courses", relation := some "REFERENCES", direction := none }
    [] ⟨"StudentID", "StudentID", false⟩
    { id := "collection_courses", type := "collection", label := "Courses"
      properties := [("source_system_type", .str "relational"),
                     ("original_entity_type", .str "table")]
      datasource := some "UniversityDB", collection_name := some "Courses" }
    ["Students.Major", "Courses.CourseName"]
    (by decide) (by decide) rfl (by decide) (by decide) (by decide) (by decide)
    (by simp) (by decide)

/-- One join hop distributes over an append of partial records. -/
theorem joinStep_append (lookup : List (Value × List Doc)) (is_array : Bool)
    (fld tl : String) (scope : List String) (nlf : Option String) (a b : List Doc) :
    joinStep lookup is_array fld tl scope nlf (a ++ b) =
      joinStep lookup is_array fld tl scope nlf a ++
        joinStep lookup is_array fld tl scope nlf b :=
  List.flatMap_append a b _

/-- The join loop of no partial records is empty. -/
theorem joinLoop_nil_records (gs : GraphState) (ff : FinalFields)
    (processed : List (String × List Doc)) :
    ∀ (rels : List RelStep) (last_label last_id : String),
      joinLoop gs ff processed rels last_label last_id [] = [] := by
  intro rels
  induction rels with
  | nil => intro _ _; rfl
  | cons r rest ih =>
      intro last_label last_id
      simp only [joinLoop]
      split
      · rfl
      · split
        · rfl
        · split
          · rfl
          · split
            · rfl
            · exact ih _ _

/-- An `isEmpty`-guarded map over an appended list splits, for any
function that is linear over append and empty on the empty list. -/
theorem ite_isEmpty_append {α : Type} (g : List α → List α) (x y : List α)
    (hg0 : g [] = [])
    (hga : g (x ++ y) = g x ++ g y) :
    (if (x ++ y).isEmpty = true then ([] : List α) else g (x ++ y)) =
      (if x.isEmpty = true then ([] : List α) else g x) ++
        (if y.isEmpty = true then ([] : List α) else g y) := by
  cases x with
  | nil =>
      simp only [List.nil_append, List.isEmpty_nil]
      cases y <;> simp [hg0]
  | cons xh xt =>
      cases y with
      | nil => simp [List.append_nil, hg0]
      | cons yh yt => rw [hga]; simp

/-- The join loop distributes over an append of partial records: each
partial record is fanned out independently of the others. -/
theorem joinLoop_append (gs : GraphState) (ff : FinalFields)
    (processed : List (String × List Doc)) :
    ∀ (rels : List RelStep) (last_label last_id : String) (a b : List Doc),
      joinLoop gs ff processed rels last_label last_id (a ++ b) =
        joinLoop gs ff processed rels last_label last_id a ++
          joinLoop gs ff processed rels last_label last_id b := by
  intro rels
  induction rels with
  | nil => intro _ _ _ _; rfl
  | cons r rest ih =>
      intro last_label last_id a b
      simp only [joinLoop]
      split
      · rfl
      · split
        · rfl
        · rename_i tn htn
          split
          · rfl
          · rename_i li hli
            rw [joinStep_append]
            exact ite_isEmpty_append
              (joinLoop gs ff processed rest r.target_entity tn.id) _ _
              (joinLoop_nil_records gs ff processed rest r.target_entity tn.id)
              (ih r.target_entity tn.id _ _)

/-- The join loop is the concatenation of its runs on each single
partial record. -/
theorem joinLoop_flatMap (gs : GraphState) (ff : FinalFields)
    (processed : List (String × List Doc)) (rels : List RelStep)
    (last_label last_id : String) :
    ∀ (recs : List Doc),
      joinLoop gs ff processed rels last_label last_id recs =
        recs.flatMap (fun r => joinLoop gs ff processed rels last_label last_id [r]) := by
  intro recs
  induction recs with
  | nil => rw [joinLoop_nil_records]; rfl
  | cons x xs ih =>
      have h := joinLoop_append gs ff processed rels last_label last_id [x] xs
      rw [List.singleton_append] at h
      rw [h, ih, List.flatMap_cons]

/-- The cleaning fold grows its accumulator by at most one record per
input record. -/
theorem cleanResults_foldl_length (headers : List String) :
    ∀ (results : List Doc) (acc : List Doc),
      (results.foldl
        (fun acc record =>
          let cleaned := headers.map (fun h => (h, docGet record h))
          if cleaned.any (fun p => ¬ p.2.isNull) then acc ++ [cleaned] else acc)
        acc).length ≤ acc.length + results.length := by
  intro results
  induction results with
  | nil => intro acc; simp
  | cons x xs ih =>
      intro acc
      rw [List.foldl_cons]
      refine le_trans (ih _) ?_
      dsimp only
      have hstep : (if (headers.map (fun h => (h, docGet x h))).any
            (fun p => ¬ p.2.isNull) = true
          then acc ++ [headers.map (fun h => (h, docGet x h))] else acc).length ≤
          acc.length + 1 := by
        split
        · simp
        · exact Nat.le_succ _
      rw [List.length_cons]
      omega

/-- Cleaning never grows the record count. -/
theorem cleanResults_length_le (headers : List String) (results : List Doc) :
    (cleanResults headers results).length ≤ results.length := by
  have h := cleanResults_foldl_length headers results []
  rw [List.length_nil, Nat.zero_add] at h
  exact h

/-- A step whose target entity resolves to an empty stored collection
records the empty dataset, whatever else happens in the step. -/
theorem traverseStep_processed_empty_ds (gs : GraphState) (ds : DataStore)
    (ff : FinalFields) (st : TravState) (r : RelStep) (nx : Option RelStep)
    (tn : GraphNode)
    (hfind : find_entity_node gs r.target_entity = some tn)
    (hds : ds (tn.collection_name.getD "") = []) :
    (traverseStep gs ds ff st r nx).processed =
      dictInsert st.processed r.target_entity [] := by
  cases hc : st.current_entity_node_id with
  | none => simp [traverseStep, hc]
  | some cid =>
    cases hcol : strFalsy tn.collection_name with
    | true => simp [traverseStep, hc, hfind, hcol]
    | false =>
      cases hl : _get_relationship_link_fields gs (some cid) r with
      | none => simp [traverseStep, hc, hfind, hcol, hl]
      | some li =>
        cases hv : (collectLinkValues li.start_entity_link_field
            li.start_entity_link_is_array
            ((alistGet st.processed st.current_entity_label).getD [])).isEmpty with
        | true => simp [traverseStep, hc, hfind, hcol, hl, hv]
        | false => simp [traverseStep, hc, hfind, hcol, hl, hv, hds, mongoFind]

/-- After the traversal, a hop whose target collection is globally empty
has recorded the empty dataset, provided no later hop re-targets the
same label. -/
theorem traverseRelations_empty_ds (gs : GraphState) (ds : DataStore) (ff : FinalFields)
    (rk : RelStep) (post : List RelStep) (tnk : GraphNode)
    (hfk : find_entity_node gs rk.target_entity = some tnk)
    (hds : ds (tnk.collection_name.getD "") = [])
    (hpost : rk.target_entity ∉ post.map (fun r => r.target_entity)) :
    ∀ (pre : List RelStep) (rels : List RelStep) (st : TravState),
      rels = pre ++ rk :: post →
      alistGet (traverseRelations gs ds ff st rels).processed rk.target_entity =
        some [] := by
  intro pre
  induction pre with
  | nil =>
      intro rels st hsplit
      subst hsplit
      rw [List.nil_append, traverseRelations_cons,
        traverseRelations_processed_stable gs ds ff rk.target_entity post _ hpost,
        traverseStep_processed_empty_ds gs ds ff st rk post.head? tnk hfk hds,
        alistGet_dictInsert, if_pos rfl]
  | cons p pre' ih =>
      intro rels st hsplit
      subst hsplit
      rw [List.cons_append, traverseRelations_cons]
      exact ih (pre' ++ rk :: post) _ rfl

/-- C1 counterexample: Scenario A with a globally empty Enrollments
collection and an empty `final_fields` request — the hop's fetched
dataset is empty and the join collapses as claimed, but the
expected-headers computation then hits the line-702 `UnboundLocalError`
(the dead `node_id` assignment), so the source returns `None` instead of
the claimed well-formed (possibly empty) result sequence. -/
theorem c1_counterexample :
    dsAEmptyEnrollments "Enrollments" = [] ∧
    _retrieve_related_data gA dsAEmptyEnrollments
      { qA with final_fields := [] } = none := by
  exact ⟨by decide, by decide⟩

/-- C1 (amended): the join is strictly inner at every hop — every output
record of a join hop extends some input record with an actually matched
target document (no null-padding); a hop's output count is exactly the
sum of the per-record match counts; the join loop fans each start record
out independently (it distributes over the record list); a record whose
carried link value matches no target document at a hop contributes
nothing; the cleaned final result is bounded by the sum over start
records of their individual fan-outs; and a hop whose fetched target
dataset is globally empty yields the empty result sequence — provided
(unlike the claim's unconditional wording) the first hop's link fields
resolve, no later hop re-targets the same entity label, and the
expected-headers computation succeeds (otherwise the source returns
`None` via line 494 or the line-702 `UnboundLocalError`). -/
theorem c1_inner_join :
    (∀ (lookup : List (Value × List Doc)) (arr : Bool) (fld tl : String)
        (scope : List String) (nlf : Option String) (recs : List Doc) (out : Doc),
        out ∈ joinStep lookup arr fld tl scope nlf recs →
        ∃ r ∈ recs, ∃ t ∈ matchedTargets lookup arr (docGet r fld),
          out = extendRecord tl scope nlf r t) ∧
    (∀ (lookup : List (Value × List Doc)) (arr : Bool) (fld tl : String)
        (scope : List String) (nlf : Option String) (recs : List Doc),
        (joinStep lookup arr fld tl scope nlf recs).length =
          (recs.map (fun r =>
            (matchedTargets lookup arr (docGet r fld)).length)).sum) ∧
    (∀ (gs : GraphState) (ff : FinalFields) (pr : List (String × List Doc))
        (rels : List RelStep) (l id : String) (recs : List Doc),
        joinLoop gs ff pr rels l id recs =
          recs.flatMap (fun r => joinLoop gs ff pr rels l id [r])) ∧
    (∀ (gs : GraphState) (ff : FinalFields) (pr : List (String × List Doc))
        (rel : RelStep) (rest : List RelStep) (l id : String) (tn : GraphNode)
        (li : LinkInfo) (r : Doc),
        ((alistGet pr rel.target_entity).getD []).isEmpty = false →
        find_entity_node gs rel.target_entity = some tn →
        _get_relationship_link_fields gs (some id) rel = some li →
        matchedTargets
          (buildTargetLookup li.target_entity_link_field
            ((alistGet pr rel.target_entity).getD []))
          li.start_entity_link_is_array
          (docGet r (l ++ "." ++ li.start_entity_link_field)) = [] →
        joinLoop gs ff pr (rel :: rest) l id [r] = []) ∧
    (∀ (gs : GraphState) (ff : FinalFields) (pr : List (String × List Doc))
        (rels : List RelStep) (l id : String) (recs : List Doc) (hdrs : List String),
        (cleanResults hdrs (joinLoop gs ff pr rels l id recs)).length ≤
          (recs.map (fun r => (joinLoop gs ff pr rels l id [r]).length)).sum) ∧
    (∀ (gs : GraphState) (ds : DataStore) (q : RelatedQuery) (start_node : GraphNode)
        (pre : List RelStep) (rk : RelStep) (post : List RelStep) (tnk : GraphNode)
        (hdrs : List String),
        find_entity_node gs q.start_entity = some start_node →
        strFalsy start_node.collection_name = false →
        q.relations = pre ++ rk :: post →
        (∀ r1, q.relations.head? = some r1 →
          ∃ li, _get_relationship_link_fields gs (some start_node.id) r1 = some li) →
        find_entity_node gs rk.target_entity = some tnk →
        ds (tnk.collection_name.getD "") = [] →
        rk.target_entity ∉ post.map (fun r => r.target_entity) →
        _get_expected_headers gs q.final_fields q.relations q.start_entity = some hdrs →
        _retrieve_related_data gs ds q = some []) := by
  refine ⟨?_, ?_, ?_, ?_, ?_, ?_⟩
  · intro lookup arr fld tl scope nlf recs out hmem
    simp only [joinStep, List.mem_flatMap, List.mem_map] at hmem
    obtain ⟨r, hr, t, ht, heq⟩ := hmem
    exact ⟨r, hr, t, ht, heq.symm⟩
  · intro lookup arr fld tl scope nlf recs
    simp [joinStep, List.length_flatMap, Function.comp_def, List.length_map]
  · intro gs ff pr rels l id recs
    exact joinLoop_flatMap gs ff pr rels l id recs
  · intro gs ff pr rel rest l id tn li r hne hfindr hl hmt
    simp [joinLoop, hne, hfindr, hl, joinStep, hmt]
  · intro gs ff pr rels l id recs hdrs
    refine le_trans (cleanResults_length_le hdrs _) ?_
    rw [joinLoop_flatMap gs ff pr rels l id recs]
    simp [List.length_flatMap, Function.comp_def]
  · intro gs ds q start_node pre rk post tnk hdrs hfind hcol hrel hhead hfk hds hpost hhdr
    cases pre with
    | nil =>
        rw [List.nil_append] at hrel
        obtain ⟨li1, hli1⟩ := hhead rk (by rw [hrel]; rfl)
        rw [hrel] at hhdr
        simp only [_retrieve_related_data, hfind, hcol, Bool.false_eq_true, if_false, hrel,
          List.head?_cons, hli1, hhdr]
        refine ite_eq_both rfl (ite_eq_both rfl ?_)
        rw [joinLoop_collapse gs q.final_fields]
        · rfl
        · refine ⟨rk, List.mem_cons_self _ _, ?_⟩
          rw [traverseRelations_empty_ds gs ds q.final_fields rk post tnk hfk hds hpost []]
          · rfl
          · rfl
        · intro rel hm hnone
          refine traverseRelations_missing gs ds q.final_fields _ _ ?_
            rel.target_entity hnone
          intro label hnone2
          dsimp only
          by_cases hql : q.start_entity = label
          · rw [hql] at hfind
            rw [hnone2] at hfind
            exact Option.noConfusion hfind
          · rw [alistGet_cons, if_neg hql]
            rfl
    | cons p1 pre' =>
        rw [List.cons_append] at hrel
        obtain ⟨li1, hli1⟩ := hhead p1 (by rw [hrel]; rfl)
        rw [hrel] at hhdr
        simp only [_retrieve_related_data, hfind, hcol, Bool.false_eq_true, if_false, hrel,
          List.head?_cons, hli1, hhdr]
        refine ite_eq_both rfl (ite_eq_both rfl ?_)
        rw [joinLoop_collapse gs q.final_fields]
        · rfl
        · refine ⟨rk,
            List.mem_cons_of_mem _ (List.mem_append_right _ (List.mem_cons_self _ _)), ?_⟩
          rw [traverseRelations_empty_ds gs ds q.final_fields rk post tnk hfk hds hpost
            (p1 :: pre')]
          · rfl
          · rfl
        · intro rel hm hnone
          refine traverseRelations_missing gs ds q.final_fields _ _ ?_
            rel.target_entity hnone
          intro label hnone2
          dsimp only
          by_cases hql : q.start_entity = label
          · rw [hql] at hfind
            rw [hnone2] at hfind
            exact Option.noConfusion hfind
          · rw [alistGet_cons, if_neg hql]
            rfl

/-- C1 witness: a join hop's concrete output record arises from a
matched Courses document; a Scenario-A-shaped record whose StudentID
matches no Enrollments document fans out to nothing; and Scenario A run
against an empty Enrollments collection returns the empty sequence. -/
theorem c1_inner_join_witness :
    (∃ r ∈ ([[("Students.CourseID", Value.num 101)]] : List Doc),
      ∃ t ∈ matchedTargets
          (buildTargetLookup "CourseID"
            [[("CourseID", Value.num 101), ("CourseName", Value.str "Intro")]])
          false (docGet r "Students.CourseID"),
      ([("Students.CourseID", Value.num 101),
        ("Courses.CourseName", Value.str "Intro")] : Doc) =
        extendRecord "Courses" ["CourseName"] none r t) ∧
    joinLoop gA []
      [("Students", [[("Students.StudentID", Value.num 1)]]),
       ("Enrollments", [[("EnrollmentID", Value.num 1), ("StudentID", Value.num 1001)]])]
      [relEnrollIn]
      "Students" "collection_students" [[("Students.StudentID", Value.num 1)]] = [] ∧
    _retrieve_related_data gA dsAEmptyEnrollments qA = some [] := by
  refine ⟨?_, ?_, ?_⟩
  · exact c1_inner_join.1
      (buildTargetLookup "CourseID"
        [[("CourseID", Value.num 101), ("CourseName", Value.str "Intro")]])
      false "Students.CourseID" "Courses" ["CourseName"] none
      [[("Students.CourseID", Value.num 101)]]
      [("Students.CourseID", Value.num 101),
       ("Courses.CourseName", Value.str "Intro")]
      (by decide)
  · exact c1_inner_join.2.2.2.1 gA []
      [("Students", [[("Students.StudentID", Value.num 1)]]),
       ("Enrollments", [[("EnrollmentID", Value.num 1), ("StudentID", Value.num 1001)]])]
      relEnrollIn [] "Students" "collection_students" enrollmentsNodeA
      ⟨"StudentID", "StudentID", false⟩
      [("Students.StudentID", Value.num 1)]
      (by decide) (by decide) (by decide) (by decide)
  · refine c1_inner_join.2.2.2.2.2 gA dsAEmptyEnrollments qA studentsNodeA []
      relEnrollIn [relCoursesOut] enrollmentsNodeA
      ["Students.Major", "Courses.CourseName"]
      (by decide) (by decide) rfl ?_ (by decide) (by decide) (by decide) (by decide)
    intro r1 h
    have h3 : r1 = relEnrollIn :=
      (Option.some.inj (show some relEnrollIn = some r1 from h)).symm
    subst h3
    exact ⟨⟨"StudentID", "StudentID", false⟩, by decide⟩
